import Mathlib

/-!
A shallow embedding of `src/gdwg_graph.h`, the class `gdwg::graph`.

The C++ class `gdwg::graph<N, E>` keeps two members:

* `nodes_ : std::set<N>`, embedded as a list in iteration (ascending) order;
* `adjacency_list_ : std::map<N, std::set<std::unique_ptr<edge<N, E>>>>`, embedded as a
  list of `(key, bucket)` pairs in iteration (ascending key) order.

A bucket is a `std::set` of `unique_ptr`s with the default comparator, so it is ordered by
pointer value and never rejects an insertion of a freshly allocated edge.  A bucket is
embedded as the list of its edge objects in iteration (address) order.  Where the code
allocates a fresh edge and inserts the pointer into a bucket, the place at which the new
pointer lands among the old ones is decided by the allocator; the embedding takes that
place as an explicit argument, and every theorem quantifies over it.

Member functions that can throw return an `Except exception _`; mutating member
functions return the outcome together with the state of the object after the call.
-/

namespace gdwg

/-! ## Edges -/

/-- The class hierarchy `edge` / `weighted_edge` / `unweighted_edge` as a sum type. Both
derived classes inherit `src_` and `dst_`; `weighted_edge` adds `weight_`. -/
inductive edge (N E : Type) where
  | weighted_edge (src_ dst_ : N) (weight_ : E)
  | unweighted_edge (src_ dst_ : N)
  deriving DecidableEq, Repr

/-- The exceptions the class can raise: `std::runtime_error` with its message, thrown by
the explicit guards, and `std::out_of_range`, thrown by `std::map::at`. -/
inductive exception where
  | runtime_error (what : String)
  | out_of_range
  deriving DecidableEq, Repr

deriving instance DecidableEq for Except

/-- The two data members of `gdwg::graph`. -/
structure graph (N E : Type) where
  nodes_ : List N
  adjacency_list_ : List (N × List (edge N E))
  deriving DecidableEq, Repr

variable {N E : Type}

/-- The override `is_weighted` of the two edge classes. -/
def edge.is_weighted : edge N E → Bool
  | .weighted_edge _ _ _ => true
  | .unweighted_edge _ _ => false

/-- The override `get_weight` of the two edge classes. -/
def edge.get_weight : edge N E → Option E
  | .weighted_edge _ _ w => some w
  | .unweighted_edge _ _ => none

/-- The override `get_nodes` of the two edge classes. -/
def edge.get_nodes : edge N E → N × N
  | .weighted_edge s d _ => (s, d)
  | .unweighted_edge s d => (s, d)

/-! ## The standard containers -/

/-- Insertion of a freshly allocated pointer into a pointer-ordered `std::set`: the new
element lands at place `pos` among the old ones (at the end when `pos` is too large). -/
def emplace {α : Type} : Nat → α → List α → List α
  | 0, a, l => a :: l
  | _ + 1, a, [] => [a]
  | n + 1, a, b :: l => b :: emplace n a l

/-- The bucket of the map entry with index `i`, as `node_it->second` reads it. -/
def map_index_at (i : Nat) (m : List (N × List (edge N E))) : List (edge N E) :=
  match m.get? i with
  | some (_, bucket) => bucket
  | none => []

section containers
variable [LinearOrder N]

/-- The member `std::set<N>::insert`: ordered insertion, nothing happens when the value
is there. -/
def set_insert (v : N) : List N → List N
  | [] => [v]
  | x :: xs => if v < x then v :: x :: xs else if v = x then x :: xs else x :: set_insert v xs

/-- The member `std::set<N>::erase (key)`. -/
def set_erase (v : N) (s : List N) : List N :=
  s.filter (fun x => !decide (x = v))

/-- The member `std::map::find`, returning the mapped value (`none` for `end ()`). -/
def map_find {β : Type} (k : N) : List (N × β) → Option β
  | [] => none
  | (k', b) :: r => if k' = k then some b else map_find k r

/-- The assignment `m[k] = b` on a `std::map`: replaces the mapped value of `k`, or
inserts the pair at its place in key order. -/
def map_assign {β : Type} (k : N) (b : β) : List (N × β) → List (N × β)
  | [] => [(k, b)]
  | (k', b') :: r =>
    if k < k' then (k, b) :: (k', b') :: r
    else if k = k' then (k, b) :: r
    else (k', b') :: map_assign k b r

/-- The value read through `m[k]` on a map of buckets: the bucket of `k`, a fresh empty
bucket when `k` has none. -/
def map_index (k : N) (m : List (N × List (edge N E))) : List (edge N E) :=
  (map_find k m).getD []

/-- The effect of evaluating `m[k]` on the map itself: `operator[]` default-constructs an
empty bucket for a key that has none. -/
def map_touch (k : N) (m : List (N × List (edge N E))) : List (N × List (edge N E)) :=
  match map_find k m with
  | some _ => m
  | none => map_assign k [] m

end containers

/-! ## The graph: accessors used by the modifiers -/

section graph_ops
variable [LinearOrder N] [LinearOrder E]

/-- Body of `graph::is_node`: `nodes_.find(value) != nodes_.end()`. -/
def graph.is_node (g : graph N E) (value : N) : Bool :=
  decide (value ∈ g.nodes_)

/-- Body of `graph::empty`. -/
def graph.empty (g : graph N E) : Bool :=
  g.nodes_.isEmpty

/-- Message of the guard of `insert_edge`. -/
def insert_edge_what : String :=
  "Cannot call gdwg::graph<N, E>::insert_edge when either src or dst node does not exist"

/-- Message of the guard of `is_connected`. -/
def is_connected_what : String :=
  "Cannot call gdwg::graph<N, E>::is_connected if src or dst node don't exist in the graph"

/-- Body of `graph::insert_node`. -/
def graph.insert_node (g : graph N E) (value : N) : Bool × graph N E :=
  (!g.is_node value, { g with nodes_ := set_insert value g.nodes_ })

/-- Body of `graph::insert_edge`. The guard throws before anything is touched. Then
`adjacency_list_[src]` creates the bucket of `src` if there is none, `find_if` looks for
an edge with this destination and this optional weight, and otherwise a fresh edge object
is emplaced; `pos` is the place its pointer takes in the bucket. The pointer is new, so
`emplace` always reports `inserted == true`. -/
def graph.insert_edge (pos : Nat) (g : graph N E) (src dst : N) (weight : Option E) :
    Except exception Bool × graph N E :=
  if !g.is_node src || !g.is_node dst then
    (.error (.runtime_error insert_edge_what), g)
  else
    let adj := map_touch src g.adjacency_list_
    let edges := map_index src adj
    if edges.any (fun e => decide (e.get_nodes.2 = dst) && decide (e.get_weight = weight)) then
      (.ok false, { g with adjacency_list_ := adj })
    else
      match weight with
      | some w =>
        (.ok true,
          { g with adjacency_list_ := map_assign src (emplace pos (.weighted_edge src dst w) edges) adj })
      | none =>
        (.ok true,
          { g with adjacency_list_ := map_assign src (emplace pos (.unweighted_edge src dst) edges) adj })

/-- Body of `graph::is_connected`: the guard, then `adjacency_list_.at(src)`, which throws
`std::out_of_range` when `src` has no bucket, then `any_of` over the bucket. -/
def graph.is_connected (g : graph N E) (src dst : N) : Except exception Bool :=
  if !g.is_node src || !g.is_node dst then
    .error (.runtime_error is_connected_what)
  else
    match map_find src g.adjacency_list_ with
    | none => .error .out_of_range
    | some edges => .ok (edges.any (fun e => decide (e.get_nodes.2 = dst)))

/-- Message of the guard of `replace_node`. -/
def replace_node_what : String :=
  "Cannot call gdwg::graph<N, E>::replace_node on a node that doesn't exist"

/-- Message of the guard of `merge_replace_node`. -/
def merge_replace_node_what : String :=
  "Cannot call gdwg::graph<N, E>::merge_replace_node on old or new data if they don't exist in the graph"

/-- Message of the guard of `erase_edge`. -/
def erase_edge_what : String :=
  "Cannot call gdwg::graph<N, E>::erase_edge on src or dst if they don't exist in the graph"

/-- Message of the guard of `edges`. -/
def edges_what : String :=
  "Cannot call gdwg::graph<N, E>::edges if src or dst node don't exist in the graph"

/-- Message of the guard of `connections`. -/
def connections_what : String :=
  "Cannot call gdwg::graph<N, E>::connections if src doesn't exist in the graph"

/-- The fresh edge object the rebuilding loops make from `e`: a `weighted_edge` or an
`unweighted_edge` according to `e->is_weighted ()`, with the same endpoints and weight. -/
def copy_edge : edge N E → edge N E
  | .weighted_edge s d w => .weighted_edge s d w
  | .unweighted_edge s d => .unweighted_edge s d

/-- The fresh edge object `replace_node` and `merge_replace_node` make from `e`, with
`new_src` and `new_dst` computed from the endpoints stored in `e`. -/
def renamed_edge (old_data new_data : N) : edge N E → edge N E
  | .weighted_edge s d w =>
    .weighted_edge (if s = old_data then new_data else s) (if d = old_data then new_data else d) w
  | .unweighted_edge s d =>
    .unweighted_edge (if s = old_data then new_data else s) (if d = old_data then new_data else d)

/-- The statement `new_adjacency_list[k].insert (std::move (new_edge))`: the bucket of
`k` is created if absent and the fresh pointer takes place `pos` in it. -/
def bucket_insert (pos : Nat) (k : N) (e : edge N E) (m : List (N × List (edge N E))) :
    List (N × List (edge N E)) :=
  map_assign k (emplace pos e (map_index k m)) m

/-- Inner loop of `replace_node` and of `merge_replace_node` over one bucket; `j` counts
the edges visited and `al j` is the place the `j`-th fresh pointer takes. -/
def rename_bucket (al : Nat → Nat) (old_data new_data : N) :
    Nat → List (edge N E) → List (N × List (edge N E)) → List (N × List (edge N E))
  | _, [], new_adjacency_list => new_adjacency_list
  | j, e :: es, new_adjacency_list =>
    rename_bucket al old_data new_data (j + 1) es
      (bucket_insert (al j) (renamed_edge old_data new_data e).get_nodes.1
        (renamed_edge old_data new_data e) new_adjacency_list)

/-- Outer loop of `replace_node` and of `merge_replace_node` (the two loops are the same
text). After the inner loop the bucket just visited is move-assigned, whole and as it
was, to `new_adjacency_list[new_data]` when its key is `old_data` and to
`new_adjacency_list[src]` otherwise, replacing what the inner loop put there. -/
def rename_loop (al : Nat → Nat → Nat) (old_data new_data : N) :
    Nat → List (N × List (edge N E)) → List (N × List (edge N E)) → List (N × List (edge N E))
  | _, [], new_adjacency_list => new_adjacency_list
  | i, (src, edges) :: rest, new_adjacency_list =>
    let filled := rename_bucket (al i) old_data new_data 0 edges new_adjacency_list
    rename_loop al old_data new_data (i + 1) rest
      (if src = old_data then map_assign new_data edges filled else map_assign src edges filled)

/-- Body of `graph::replace_node`. -/
def graph.replace_node (al : Nat → Nat → Nat) (g : graph N E) (old_data new_data : N) :
    Except exception Bool × graph N E :=
  if !g.is_node old_data then
    (.error (.runtime_error replace_node_what), g)
  else if g.is_node new_data then
    (.ok false, g)
  else
    (.ok true,
      { nodes_ := set_insert new_data (set_erase old_data g.nodes_)
        adjacency_list_ := rename_loop al old_data new_data 0 g.adjacency_list_ [] })

/-- Body of `graph::merge_replace_node`. -/
def graph.merge_replace_node (al : Nat → Nat → Nat) (g : graph N E) (old_data new_data : N) :
    Except exception Unit × graph N E :=
  if !g.is_node old_data || !g.is_node new_data then
    (.error (.runtime_error merge_replace_node_what), g)
  else
    (.ok (),
      { nodes_ := set_erase old_data g.nodes_
        adjacency_list_ := rename_loop al old_data new_data 0 g.adjacency_list_ [] })

/-- The loops of `erase_node` and `erase_edge` over one bucket: a fresh copy of every
edge that passes `keep` is inserted into the set `new_edges`; `al j` is the place the
pointer made at the `j`-th edge takes. -/
def copy_if (al : Nat → Nat) (keep : edge N E → Bool) :
    Nat → List (edge N E) → List (edge N E) → List (edge N E)
  | _, [], new_edges => new_edges
  | j, e :: es, new_edges =>
    if keep e then copy_if al keep (j + 1) es (emplace (al j) (copy_edge e) new_edges)
    else copy_if al keep (j + 1) es new_edges

/-- Outer loop of `erase_node`: the bucket of `value` is skipped, every other bucket is
rebuilt without the edges whose destination is `value` and assigned (also when empty). -/
def erase_node_loop (al : Nat → Nat → Nat) (value : N) :
    Nat → List (N × List (edge N E)) → List (N × List (edge N E)) → List (N × List (edge N E))
  | _, [], new_adjacency_list => new_adjacency_list
  | i, (src, edges) :: rest, new_adjacency_list =>
    if src = value then erase_node_loop al value (i + 1) rest new_adjacency_list
    else
      erase_node_loop al value (i + 1) rest
        (map_assign src (copy_if (al i) (fun e => !decide (e.get_nodes.2 = value)) 0 edges [])
          new_adjacency_list)

/-- Body of `graph::erase_node`. -/
def graph.erase_node (al : Nat → Nat → Nat) (g : graph N E) (value : N) : Bool × graph N E :=
  if !g.is_node value then (false, g)
  else
    (true,
      { nodes_ := set_erase value g.nodes_
        adjacency_list_ := erase_node_loop al value 0 g.adjacency_list_ [] })

/-- The test of `erase_edge (src, dst, weight)` on an edge of the bucket `current_src`. -/
def erase_edge_match (src dst : N) (weight : Option E) (current_src : N) (e : edge N E) : Bool :=
  decide (current_src = src) && decide (e.get_nodes.2 = dst) && decide (e.get_weight = weight)

/-- Outer loop of `erase_edge (src, dst, weight)`, carrying `new_adjacency_list` and the
flag `edge_removed`. Every bucket is rebuilt without the matching edges and is assigned
only if the rebuilt bucket is not empty. -/
def erase_edge_loop (al : Nat → Nat → Nat) (src dst : N) (weight : Option E) :
    Nat → List (N × List (edge N E)) → List (N × List (edge N E)) × Bool →
      List (N × List (edge N E)) × Bool
  | _, [], acc => acc
  | i, (current_src, edges) :: rest, (new_adjacency_list, edge_removed) =>
    let new_edges :=
      copy_if (al i) (fun e => !erase_edge_match src dst weight current_src e) 0 edges []
    let removed := edge_removed || edges.any (erase_edge_match src dst weight current_src)
    erase_edge_loop al src dst weight (i + 1) rest
      (if new_edges.isEmpty then new_adjacency_list
        else map_assign current_src new_edges new_adjacency_list, removed)

/-- Body of `graph::erase_edge (N const&, N const&, std::optional<E>)`. -/
def graph.erase_edge (al : Nat → Nat → Nat) (g : graph N E) (src dst : N) (weight : Option E) :
    Except exception Bool × graph N E :=
  if !g.is_node src || !g.is_node dst then
    (.error (.runtime_error erase_edge_what), g)
  else
    let r := erase_edge_loop al src dst weight 0 g.adjacency_list_ ([], false)
    (.ok r.2, { g with adjacency_list_ := r.1 })

/-- Body of `graph::clear`. -/
def graph.clear (_g : graph N E) : graph N E := ⟨[], []⟩

/-! ## Accessors -/

/-- The comparison `a < b` of two `std::optional<E>`: an empty optional is less than
every value, two values compare as their contents do. -/
def optional_lt : Option E → Option E → Prop
  | none, none => False
  | none, some _ => True
  | some _, none => False
  | some a, some b => a < b

instance optional_lt_decidable : DecidableRel (optional_lt : Option E → Option E → Prop)
  | none, none => isFalse (fun h => h)
  | none, some _ => isTrue trivial
  | some _, none => isFalse (fun h => h)
  | some a, some b => inferInstanceAs (Decidable (a < b))

/-- Body of `graph::edges (src, dst)`. After the guard and `adjacency_list_.at (src)` the
loop copies every edge of the bucket of `src` into `unweighted_edges` or `weighted_edges`
(the loop does not look at `dst`); the result is the unweighted copies followed by the
weighted copies sorted with the comparator `a->get_weight () < b->get_weight ()`.
On a short vector `std::sort` is the insertion sort of the library, which moves an edge
only past edges of strictly greater weight, so edges of equal weight keep their bucket
order; it is embedded as insertion sort that places `a` before the first `b` with
`not (b < a)`. -/
def graph.edges (g : graph N E) (src dst : N) : Except exception (List (edge N E)) :=
  if !g.is_node src || !g.is_node dst then
    .error (.runtime_error edges_what)
  else
    match map_find src g.adjacency_list_ with
    | none => .error .out_of_range
    | some edges =>
      let unweighted_edges := (edges.filter (fun e => !e.is_weighted)).map copy_edge
      let weighted_edges := (edges.filter (fun e => e.is_weighted)).map copy_edge
      .ok (unweighted_edges ++
        weighted_edges.insertionSort (fun a b => ¬ optional_lt b.get_weight a.get_weight))

/-- Body of `graph::connections (src)`: the guard, `adjacency_list_.at (src)`, then the
destinations of the bucket collected in a `std::set<N>`. -/
def graph.connections (g : graph N E) (src : N) : Except exception (List N) :=
  if !g.is_node src then
    .error (.runtime_error connections_what)
  else
    match map_find src g.adjacency_list_ with
    | none => .error .out_of_range
    | some edges => .ok (edges.foldl (fun connections e => set_insert e.get_nodes.2 connections) [])

/-! ## The cursor -/

/-- The data members of `graph::iterator`. A map iterator is embedded as the index of the
entry it points at in `adjacency_list_` (the length of the list for `end ()`); a set
iterator as the index of its bucket together with the index of the edge in that bucket
(the length of the bucket for the `end ()` of the bucket). -/
structure iterator where
  current_node_it_ : Nat
  end_node_it_ : Nat
  edge_it_ : Nat × Nat
  deriving DecidableEq, Repr

/-- The explicit constructor `iterator (current_node_it, end_node_it, edge_it)`: its
body resets `edge_it_` to `current_node_it_->second.begin ()` whenever
`current_node_it_ != end_node_it_`. -/
def iterator.construct (current_node_it end_node_it : Nat) (edge_it : Nat × Nat) : iterator :=
  if current_node_it ≠ end_node_it then
    { current_node_it_ := current_node_it, end_node_it_ := end_node_it,
      edge_it_ := (current_node_it, 0) }
  else
    { current_node_it_ := current_node_it, end_node_it_ := end_node_it, edge_it_ := edge_it }

/-- Body of `iterator::operator*` on a cursor of `g`: the key under `current_node_it_`
with the destination and weight of the edge under `edge_it_`; `none` when one of the two
iterators points at no element (the behaviour is then undefined). -/
def iterator.deref (g : graph N E) (it : iterator) : Option (N × N × Option E) :=
  match g.adjacency_list_.get? it.current_node_it_, g.adjacency_list_.get? it.edge_it_.1 with
  | some (from_, _), some (_, bucket) =>
    match bucket.get? it.edge_it_.2 with
    | some e => some (from_, e.get_nodes.2, e.get_weight)
    | none => none
  | _, _ => none

/-- Body of `iterator::operator==`. -/
def iterator.eq (a b : iterator) : Bool :=
  decide (a.current_node_it_ = b.current_node_it_) &&
    (decide (a.current_node_it_ = a.end_node_it_) || decide (a.edge_it_ = b.edge_it_))

/-- The loop at the head of `begin` and `end`: starting at the entry with index `i`, the
index of the first entry whose bucket is not empty, or the index past the last entry. -/
def skip_empty : Nat → List (N × List (edge N E)) → Nat
  | i, [] => i
  | i, (_, bucket) :: rest => if bucket.isEmpty then skip_empty (i + 1) rest else i

/-- Body of `graph::end`. When no bucket holds an edge the body is `return end ();`, a
call of itself on the same graph; `fuel` bounds the depth of these calls and `none` is
the answer when it runs out. Otherwise the cursor is constructed from the first entry
with an edge and the `end ()` of its bucket. -/
def graph.end_ : Nat → graph N E → Option iterator
  | 0, _ => none
  | fuel + 1, g =>
    let node_it := skip_empty 0 g.adjacency_list_
    if node_it = g.adjacency_list_.length then graph.end_ fuel g
    else
      some (iterator.construct node_it g.adjacency_list_.length
        (node_it, (map_index_at node_it g.adjacency_list_).length))

/-- Body of `graph::begin`; it calls `end ()` when no bucket holds an edge. -/
def graph.begin_ (fuel : Nat) (g : graph N E) : Option iterator :=
  let node_it := skip_empty 0 g.adjacency_list_
  if node_it = g.adjacency_list_.length then graph.end_ fuel g
  else some (iterator.construct node_it g.adjacency_list_.length (node_it, 0))

/-- The predicate `find` hands to `find_if`. -/
def find_match (dst : N) (weight : Option E) (e : edge N E) : Bool :=
  if weight.isSome then decide (e.get_nodes.2 = dst) && decide (e.get_weight = weight)
  else decide (e.get_nodes.2 = dst) && !e.get_weight.isSome

/-- Body of `graph::find (src, dst, weight)`: `adjacency_list_.find (src)`, then `find_if`
over the bucket, then the cursor constructed from the two iterators, or `end ()`. -/
def graph.find (fuel : Nat) (g : graph N E) (src dst : N) (weight : Option E) : Option iterator :=
  match g.adjacency_list_.findIdx? (fun kb => decide (kb.1 = src)) with
  | none => graph.end_ fuel g
  | some node_it =>
    match (map_index_at node_it g.adjacency_list_).findIdx? (find_match dst weight) with
    | none => graph.end_ fuel g
    | some edge_it => some (iterator.construct node_it g.adjacency_list_.length (node_it, edge_it))

/-- The `while` loop of `iterator::operator++`: as long as the cursor is not at the end of
the map and `edge_it_` is the `end ()` of the current bucket, the cursor moves to the next
entry and, unless that is the end of the map, to the `begin ()` of its bucket. Every turn
advances `current_node_it_`, so `steps`, the distance to `end_node_it_`, bounds the turns. -/
def iterator.skip_exhausted (g : graph N E) : Nat → iterator → iterator
  | 0, it => it
  | steps + 1, it =>
    if it.current_node_it_ ≠ it.end_node_it_ ∧
        it.edge_it_ = (it.current_node_it_, (map_index_at it.current_node_it_ g.adjacency_list_).length)
    then
      iterator.skip_exhausted g steps
        (if it.current_node_it_ + 1 ≠ it.end_node_it_ then
          { it with current_node_it_ := it.current_node_it_ + 1,
                    edge_it_ := (it.current_node_it_ + 1, 0) }
        else { it with current_node_it_ := it.current_node_it_ + 1 })
    else it

/-- Body of `iterator::operator++` (pre-increment) on a cursor of `g`. -/
def iterator.increment (g : graph N E) (it : iterator) : iterator :=
  iterator.skip_exhausted g (it.end_node_it_ - it.current_node_it_)
    { it with edge_it_ := (it.edge_it_.1, it.edge_it_.2 + 1) }

/-- The loop `for (auto it = first; it != last; ++it)` that collects `*it`; `turns` bounds
the number of turns and `none` is the answer when it runs out or when a cursor that
points at no edge is dereferenced. -/
def visit (g : graph N E) (last : iterator) : Nat → iterator → Option (List (N × N × Option E))
  | 0, _ => none
  | turns + 1, it =>
    if it.eq last then some []
    else
      match it.deref g, visit g last turns (it.increment g) with
      | some value, some values => some (value :: values)
      | _, _ => none

/-- Stepping a cursor from `begin ()` by increment until it compares equal to `end ()`,
collecting the values it dereferences to. -/
def graph.traversal (fuel : Nat) (g : graph N E) : Option (List (N × N × Option E)) :=
  match g.begin_ fuel, g.end_ fuel with
  | some first, some last => visit g last fuel first
  | _, _ => none

/-- Body of `graph::erase_edge (iterator i)`. The outcome is `none` when the call does not
return (`end ()` running out of fuel, or `*i` on a cursor at no edge), an exception when
the inner `erase_edge (src, dst, weight)` throws, and the returned cursor otherwise. The
inner call rebuilds the whole adjacency list, so `++i` steps a cursor whose positions are
read against the rebuilt list. -/
def graph.erase_edge_at (fuel : Nat) (al : Nat → Nat → Nat) (g : graph N E) (i : iterator) :
    Option (Except exception iterator) × graph N E :=
  match i.deref g with
  | none => (none, g)
  | some (src, dst, weight) =>
    match g.erase_edge al src dst weight with
    | (.error e, g') => (some (.error e), g')
    | (.ok _, g') =>
      let i' := i.increment g'
      match g'.end_ fuel with
      | none => (none, g')
      | some last => if i'.eq last then (some (.ok last), g') else (some (.ok i'), g')

/-- Body of `graph::erase_edge (iterator i, iterator s)`; `turns` bounds the turns of the
`while (i != s)` loop and `al k` is the allocator behaviour during the `k`-th turn. -/
def graph.erase_edge_range (fuel : Nat) (al : Nat → Nat → Nat → Nat) (s : iterator) :
    Nat → Nat → graph N E → iterator → Option (Except exception iterator) × graph N E
  | 0, _, g, _ => (none, g)
  | turns + 1, k, g, i =>
    if i.eq s then
      match g.end_ fuel with
      | none => (none, g)
      | some last => if i.eq last then (some (.ok last), g) else (some (.ok s), g)
    else
      match g.erase_edge_at fuel (al k) i with
      | (some (.ok i'), g') => graph.erase_edge_range fuel al s turns (k + 1) g' i'
      | (outcome, g') => (outcome, g')

/-- Inner loop of the copy constructor over one bucket of `other`: a fresh copy of every
edge is emplaced into `adjacency_list_[src]`. -/
def copy_bucket (al : Nat → Nat) (src : N) :
    Nat → List (edge N E) → List (N × List (edge N E)) → List (N × List (edge N E))
  | _, [], adjacency_list => adjacency_list
  | j, e :: es, adjacency_list =>
    copy_bucket al src (j + 1) es (bucket_insert (al j) src (copy_edge e) adjacency_list)

/-- Outer loop of the copy constructor. -/
def copy_loop (al : Nat → Nat → Nat) :
    Nat → List (N × List (edge N E)) → List (N × List (edge N E)) → List (N × List (edge N E))
  | _, [], adjacency_list => adjacency_list
  | i, (src, edges) :: rest, adjacency_list =>
    copy_loop al (i + 1) rest (copy_bucket (al i) src 0 edges adjacency_list)

/-- The copy constructor `graph (graph const& other)`. -/
def graph.copy (al : Nat → Nat → Nat) (other : graph N E) : graph N E :=
  { nodes_ := other.nodes_, adjacency_list_ := copy_loop al 0 other.adjacency_list_ [] }

/-- The lambda `edge_comparator` of `operator==`. -/
def edge_comparator (lhs rhs : edge N E) : Bool :=
  if lhs.get_nodes.2 ≠ rhs.get_nodes.2 then decide (lhs.get_nodes.2 < rhs.get_nodes.2)
  else if lhs.is_weighted && rhs.is_weighted then
    decide (optional_lt lhs.get_weight rhs.get_weight)
  else if !lhs.is_weighted && !rhs.is_weighted then false
  else decide (lhs.is_weighted < rhs.is_weighted)

/-- The `for` loop of `operator==` over the buckets of the left graph. `std::sort` is
embedded as insertion sort. -/
def operator_eq_loop (other : graph N E) : List (N × List (edge N E)) → Except exception Bool
  | [] => .ok true
  | (src, edges) :: rest =>
    if !other.is_node src then .ok false
    else
      match map_find src other.adjacency_list_ with
      | none => .error .out_of_range
      | some other_edges =>
        if edges.length ≠ other_edges.length then .ok false
        else
          let edges_vector := edges.insertionSort (fun a b => edge_comparator a b = true)
          let other_edges_vector :=
            other_edges.insertionSort (fun a b => edge_comparator a b = true)
          if (edges_vector.zip other_edges_vector).all
              (fun ab => decide (ab.1.get_nodes = ab.2.get_nodes) &&
                decide (ab.1.get_weight = ab.2.get_weight))
          then operator_eq_loop other rest
          else .ok false

/-- Body of `graph::operator==`. -/
def graph.operator_eq (g other : graph N E) : Except exception Bool :=
  if g.nodes_ ≠ other.nodes_ then .ok false
  else if g.adjacency_list_.length ≠ other.adjacency_list_.length then .ok false
  else operator_eq_loop other g.adjacency_list_

/-- Body of `edge::operator==`: equal weightedness first, then equal `get_nodes ()` and
equal `get_weight ()`. -/
def edge.operator_eq (e other : edge N E) : Bool :=
  if e.is_weighted = other.is_weighted then
    decide (e.get_nodes = other.get_nodes) && decide (e.get_weight = other.get_weight)
  else false

/-- The two overrides of `print_edge`: what the string stream holds after the source, the
arrow, the destination and the ending of the class were written to it. The streaming of
a node value and of a weight is that of the template arguments and is taken as `showN`
and `showE`. -/
def edge.print_edge (showN : N → String) (showE : E → String) : edge N E → String
  | .weighted_edge s d w => showN s ++ " -> " ++ showN d ++ " | W | " ++ showE w
  | .unweighted_edge s d => showN s ++ " -> " ++ showN d ++ " | U"

/-- Body of `graph::nodes`: the elements of `nodes_` are pushed to a vector in iteration
order and the vector is sorted with `std::sort`, embedded as insertion sort with `<`. -/
def graph.nodes (g : graph N E) : List N :=
  g.nodes_.insertionSort (fun a b => a < b)

/-- The `while` loop of `iterator::operator--`, entered with the cursor at the entry of
index `current`: the cursor steps back one entry and stops at the first entry whose bucket
is not empty, with `edge_it_` at the `end ()` of that bucket. Stepping back from the
first entry of the map is left undefined by the language; the red-black tree of the
library answers with the first entry itself when that entry is the root of the tree (so
on every map with one entry, and on a map of two entries whose lesser key was inserted
first) and with its header node otherwise, and `stays` says which of the two happens.
With `stays` the loop then tests the first bucket again, and never ends when that bucket
is empty; on the header node it reads a bucket that does not exist. Both are `none`. -/
def walk_back (stays : Bool) (g : graph N E) : Nat → Option (Nat × (Nat × Nat))
  | 0 =>
    if stays && !(map_index_at 0 g.adjacency_list_).isEmpty then
      some (0, (0, (map_index_at 0 g.adjacency_list_).length))
    else none
  | current + 1 =>
    if (map_index_at current g.adjacency_list_).isEmpty then walk_back stays g current
    else some (current, (current, (map_index_at current g.adjacency_list_).length))

/-- Body of `iterator::operator--` (pre-decrement) on a cursor of `g`, with `stays` as in
`walk_back`; `none` where the call gives no cursor: reading `current_node_it_->second`
at the end of the map, the cases of `walk_back`, or stepping back from the first edge of
a bucket. -/
def iterator.decrement (stays : Bool) (g : graph N E) (it : iterator) : Option iterator :=
  if it.current_node_it_ ≥ g.adjacency_list_.length then none
  else
    let moved : Option iterator :=
      if it.edge_it_ = (it.current_node_it_, 0) then
        if it.current_node_it_ ≠ it.end_node_it_ then
          match walk_back stays g it.current_node_it_ with
          | none => none
          | some (node_it, edge_it) =>
            some { it with current_node_it_ := node_it, edge_it_ := edge_it }
        else some it
      else some it
    match moved with
    | none => none
    | some it' =>
      if it'.edge_it_.2 = 0 then none
      else some { it' with edge_it_ := (it'.edge_it_.1, it'.edge_it_.2 - 1) }

/-- The graph built by the default constructor. -/
def graph.default : graph N E := ⟨[], []⟩

/-- The initializer-list and the range constructor: `insert_node` for every element. -/
def graph.of_list (il : List N) : graph N E :=
  il.foldl (fun g v => (g.insert_node v).2) graph.default

end graph_ops

/-! ## Views used in the statements -/

/-- The common shape of the two views: every edge object of every bucket, in iteration
order, labelled through `f` with the key of its bucket. -/
def adj_view {γ : Type} (f : N → edge N E → γ) (m : List (N × List (edge N E))) : List γ :=
  m.flatMap (fun kb => kb.2.map (f kb.1))

/-- The edges of the graph as the cursor, `is_connected` and the rendering see them: for
every bucket in key order and every edge object in it, the bucket key, the destination
stored in the object and its optional weight. -/
def graph.edge_list (g : graph N E) : List (N × N × Option E) :=
  adj_view (fun k e => (k, e.get_nodes.2, e.get_weight)) g.adjacency_list_

/-- The stored edge objects together with the key of the bucket that owns them. -/
def graph.entries (g : graph N E) : List (N × edge N E) :=
  adj_view (fun k e => (k, e)) g.adjacency_list_

/-- The edges `erase_node (value)` is to keep, as a test on a stored edge and the key of
its bucket: neither the key nor the destination is `value`. -/
def erase_node_keeps [DecidableEq N] (value : N) (ke : N × edge N E) : Bool :=
  !decide (ke.1 = value) && !decide (ke.2.get_nodes.2 = value)

/-- Invariant A as the specification words it: the source and the destination of every
edge are members of the node set. -/
def graph.invariant_A (g : graph N E) : Prop :=
  ∀ t ∈ g.edge_list, t.1 ∈ g.nodes_ ∧ t.2.1 ∈ g.nodes_

/-- Invariant B as the specification words it: no two edges stored for the same source
have both the same destination and the same optional weight. -/
def graph.invariant_B (g : graph N E) : Prop :=
  ∀ kb ∈ g.adjacency_list_, (kb.2.map (fun e => (e.get_nodes.2, e.get_weight))).Nodup

/-- Representation invariant of the two standard containers: `std::set` and `std::map`
iterate in strictly ascending key order. -/
def graph.WF [LinearOrder N] (g : graph N E) : Prop :=
  g.nodes_.Pairwise (· < ·) ∧ (g.adjacency_list_.map Prod.fst).Pairwise (· < ·)

/-! ## Rendering -/

section rendering
variable [LinearOrder N] [LinearOrder E]

/-- The comparator of the `std::sort` in `operator<<`, on `(src, dst, weight)` tuples. -/
def extractor_less (a b : N × N × Option E) : Bool :=
  if a.1 ≠ b.1 then decide (a.1 < b.1)
  else if a.2.1 ≠ b.2.1 then decide (a.2.1 < b.2.1)
  else
    match a.2.2, b.2.2 with
    | some x, some y => decide (x < y)
    | some _, none => false
    | none, _ => true

/-- The line `operator<<` writes for one tuple of its vector `edges`. The streaming of a
node value and of a weight is that of the template arguments and is taken as `showN` and
`showE`. -/
def edge_line (showN : N → String) (showE : E → String) (e : N × N × Option E) : String :=
  "  " ++ showN e.1 ++ " -> " ++ showN e.2.1 ++ " | " ++
    (match e.2.2 with
     | some w => "W | " ++ showE w ++ "\n"
     | none => "U\n")

/-- Body of the friend `operator<<`: nothing for an empty node set; otherwise the tuples
of all buckets are collected and sorted, and for every node of `nodes_` the header, the
lines of the tuples whose first component is the node, and the footer are written.
`std::sort` is embedded as insertion sort. -/
def graph.operator_shl (showN : N → String) (showE : E → String) (g : graph N E) : String :=
  if g.empty then ""
  else
    let edges := g.edge_list.insertionSort (fun a b => extractor_less a b = true)
    String.join (g.nodes_.map (fun node =>
      showN node ++ " (\n" ++
        String.join ((edges.filter (fun e => decide (e.1 = node))).map (edge_line showN showE)) ++
        ")\n"))

/-- The order of the specification on the edges that leave one node, as (destination,
optional weight) pairs: ascending destination, then the unweighted edge before the
weighted ones, then ascending weight. -/
def out_le (a b : N × Option E) : Prop :=
  a.1 < b.1 ∨ (a.1 = b.1 ∧
    (match a.2, b.2 with
     | none, _ => True
     | some _, none => False
     | some x, some y => x ≤ y))

instance out_le_decidable : DecidableRel (out_le : N × Option E → N × Option E → Prop) :=
  fun a b => by
    unfold out_le
    cases a.2 <;> cases b.2 <;> infer_instance

/-- The edges leaving `node` in the order of the specification. -/
def graph.out_edges_sorted (g : graph N E) (node : N) : List (N × Option E) :=
  ((g.edge_list.filter (fun e => decide (e.1 = node))).map (fun e => e.2)).insertionSort out_le

/-- The line of one edge as the specification words it: two spaces, source, arrow,
destination, then the weighted or the unweighted ending. -/
def line_spec (showN : N → String) (showE : E → String) (src dst : N) : Option E → String
  | some w => "  " ++ showN src ++ " -> " ++ showN dst ++ " | W | " ++ showE w ++ "\n"
  | none => "  " ++ showN src ++ " -> " ++ showN dst ++ " | U\n"

/-- The rendering as the specification words it: over the nodes in ascending order, the
header, one line for each edge leaving the node in the order of the specification, and
the footer. -/
def graph.rendering_spec (showN : N → String) (showE : E → String) (g : graph N E) : String :=
  String.join ((g.nodes_.insertionSort (· ≤ ·)).map (fun node =>
    showN node ++ " (\n" ++
      String.join ((g.out_edges_sorted node).map
        (fun de => line_spec showN showE node de.1 de.2)) ++
      ")\n"))

/-- The strict version of `out_le`. -/
def out_lt (a b : N × Option E) : Prop :=
  a.1 < b.1 ∨ (a.1 = b.1 ∧ optional_lt a.2 b.2)

/-- The strict lexicographic order on `(src, dst, weight)` tuples. -/
def tuple_lt (a b : N × N × Option E) : Prop :=
  a.1 < b.1 ∨ (a.1 = b.1 ∧ out_lt a.2 b.2)

/-- The graph of the rendering example of the specification, constructed from the nodes
4, 2, 3, 1 by `insert_edge (4, 3)`, `insert_edge (1, 3, 20)`, `insert_edge (1, 2, 10)`, each new
pointer behind the old ones of its bucket. -/
def history_left : graph Nat Int :=
  ((((graph.of_list [4, 2, 3, 1] : graph Nat Int).insert_edge 0 4 3 none).2.insert_edge
    0 1 3 (some 20)).2.insert_edge 1 1 2 (some 10)).2

/-- The same graph constructed from the nodes 1, 2, 3, 4 by `insert_edge (1, 2, 10)`,
`insert_edge (1, 3, 20)`, `insert_edge (4, 3)`, each new pointer behind the old ones of its
bucket. -/
def history_right : graph Nat Int :=
  ((((graph.of_list [1, 2, 3, 4] : graph Nat Int).insert_edge 0 1 2 (some 10)).2.insert_edge
    1 1 3 (some 20)).2.insert_edge 0 4 3 none).2

end rendering

/-- The graph `graph<int, int>{1, 2}` after `insert_edge (1, 2, 10)` and
`insert_edge (2, 1, 20)`: two buckets of one edge each; `p` and `q` are the positions of
the two new pointers in their buckets. -/
def decrement_two_buckets (p q : Nat) : graph Nat Int :=
  (((graph.of_list [1, 2] : graph Nat Int).insert_edge p 1 2 (some 10)).2.insert_edge
    q 2 1 (some 20)).2

/-- The graph `graph<int, int>{1, 2, 3}` after `insert_edge (1, 2, 10)` and
`insert_edge (1, 3, 20)`: one bucket of two edges, the second pointer behind the first
(position `q + 1` of a bucket of one edge). -/
def decrement_one_bucket (p q : Nat) : graph Nat Int :=
  (((graph.of_list [1, 2, 3] : graph Nat Int).insert_edge p 1 2 (some 10)).2.insert_edge
    (q + 1) 1 3 (some 20)).2

/-! ## Lemmas on the containers -/

theorem emplace_perm {α : Type} (pos : Nat) (a : α) (l : List α) :
    (emplace pos a l).Perm (a :: l) := by
  induction l generalizing pos with
  | nil => cases pos <;> simp [emplace]
  | cons b l ih =>
    cases pos with
    | zero => simp [emplace]
    | succ n =>
      simp only [emplace]
      exact ((ih n).cons b).trans (List.Perm.swap a b l)

theorem emplace_nil {α : Type} (pos : Nat) (a : α) : emplace pos a [] = [a] := by
  cases pos <;> rfl

theorem emplace_singleton {α : Type} (pos : Nat) (a b : α) :
    emplace pos a [b] = [a, b] ∨ emplace pos a [b] = [b, a] := by
  cases pos with
  | zero => exact Or.inl rfl
  | succ n => exact Or.inr (by simp [emplace, emplace_nil])

theorem emplace_same {α : Type} (pos : Nat) (a : α) : emplace pos a [a] = [a, a] := by
  rcases emplace_singleton pos a a with h | h <;> exact h

theorem emplace_pair {α : Type} (pos : Nat) (a b c : α) :
    emplace pos a [b, c] = [a, b, c] ∨ emplace pos a [b, c] = [b, a, c] ∨
      emplace pos a [b, c] = [b, c, a] := by
  cases pos with
  | zero => exact Or.inl rfl
  | succ n =>
    rcases emplace_singleton n a c with h | h
    · exact Or.inr (Or.inl (by simp [emplace, h]))
    · exact Or.inr (Or.inr (by simp [emplace, h]))

theorem mem_emplace {α : Type} (pos : Nat) (a x : α) (l : List α) :
    x ∈ emplace pos a l ↔ x = a ∨ x ∈ l := by
  rw [(emplace_perm pos a l).mem_iff, List.mem_cons]

theorem adj_view_cons {γ : Type} (f : N → edge N E → γ) (k : N) (b : List (edge N E))
    (r : List (N × List (edge N E))) :
    adj_view f ((k, b) :: r) = b.map (f k) ++ adj_view f r := by
  simp [adj_view]

theorem adj_view_nil {γ : Type} (f : N → edge N E → γ) :
    adj_view f ([] : List (N × List (edge N E))) = [] := rfl

/-- An element of the view is labelled with the key of a bucket of the map. -/
theorem mem_adj_view {γ : Type} (f : N → edge N E → γ) (m : List (N × List (edge N E)))
    (x : γ) : x ∈ adj_view f m ↔ ∃ kb ∈ m, ∃ e ∈ kb.2, f kb.1 e = x := by
  simp [adj_view, List.mem_flatMap, List.mem_map]

section container_lemmas
variable [LinearOrder N]

theorem map_find_assign {β : Type} (k : N) (b : β) (m : List (N × β)) :
    map_find k (map_assign k b m) = some b := by
  induction m with
  | nil => simp [map_assign, map_find]
  | cons kb r ih =>
    obtain ⟨k', b'⟩ := kb
    simp only [map_assign]
    split_ifs with h1 h2
    · simp [map_find]
    · simp [map_find]
    · have : k' ≠ k := fun h => h2 h.symm
      simp [map_find, this, ih]

theorem map_find_none_of_lt {β : Type} (k : N) (m : List (N × β))
    (h : ∀ x ∈ m.map Prod.fst, k < x) : map_find k m = none := by
  induction m with
  | nil => rfl
  | cons kb r ih =>
    obtain ⟨k', b'⟩ := kb
    have hk : k < k' := h k' (by simp)
    have : k' ≠ k := ne_of_gt hk
    simp only [map_find, this, if_false]
    exact ih (fun x hx => h x (by simp at hx ⊢; exact Or.inr hx))

theorem map_assign_assign {β : Type} (k : N) (b b0 : β) (m : List (N × β)) :
    map_assign k b (map_assign k b0 m) = map_assign k b m := by
  induction m with
  | nil => simp [map_assign]
  | cons kb r ih =>
    obtain ⟨k', b'⟩ := kb
    simp only [map_assign]
    split_ifs with h1 h2
    · simp [map_assign]
    · simp [map_assign]
    · simp [map_assign, h1, h2, ih]

/-- Keys of a map in iteration order. -/
theorem keys_cons_sorted {β : Type} {k : N} {b : β} {r : List (N × β)}
    (h : (((k, b) :: r).map Prod.fst).Pairwise (· < ·)) :
    (∀ x ∈ r.map Prod.fst, k < x) ∧ (r.map Prod.fst).Pairwise (· < ·) := by
  simpa [List.pairwise_cons] using h

theorem filter_ne_of_lt {β : Type} (k : N) (m : List (N × β))
    (h : ∀ x ∈ m.map Prod.fst, k < x) :
    m.filter (fun kb => !decide (kb.1 = k)) = m := by
  rw [List.filter_eq_self]
  intro kb hkb
  have : k < kb.1 := h kb.1 (List.mem_map_of_mem _ hkb)
  simpa using ne_of_gt this

/-- In a map, the view splits into the bucket of `k` and the buckets of the other keys. -/
theorem adj_view_split {γ : Type} (f : N → edge N E → γ) (k : N)
    (m : List (N × List (edge N E))) (hm : (m.map Prod.fst).Pairwise (· < ·)) :
    (adj_view f m).Perm
      ((map_index k m).map (f k) ++ adj_view f (m.filter (fun kb => !decide (kb.1 = k)))) := by
  induction m with
  | nil => simp [adj_view, map_index, map_find]
  | cons kb r ih =>
    obtain ⟨k', b'⟩ := kb
    obtain ⟨hlt, hr⟩ := keys_cons_sorted hm
    by_cases hk : k' = k
    · subst hk
      have hf : r.filter (fun kb => !decide (kb.1 = k')) = r := filter_ne_of_lt k' r hlt
      simp [adj_view_cons, map_index, map_find, List.filter_cons, hf]
    · have h1 : map_index k ((k', b') :: r) = map_index k r := by
        simp [map_index, map_find, hk]
      rw [h1, List.filter_cons]
      simp only [hk, decide_False, Bool.not_false, if_true, adj_view_cons]
      refine ((ih hr).append_left _).trans ?_
      simp only [← List.append_assoc]
      exact List.Perm.append_right _ List.perm_append_comm

/-- The view after `m[k] = b`: the new bucket and the buckets of the other keys. -/
theorem adj_view_assign {γ : Type} (f : N → edge N E → γ) (k : N) (b : List (edge N E))
    (m : List (N × List (edge N E))) (hm : (m.map Prod.fst).Pairwise (· < ·)) :
    (adj_view f (map_assign k b m)).Perm
      (b.map (f k) ++ adj_view f (m.filter (fun kb => !decide (kb.1 = k)))) := by
  induction m with
  | nil => simp [adj_view, map_assign]
  | cons kb r ih =>
    obtain ⟨k', b'⟩ := kb
    obtain ⟨hlt, hr⟩ := keys_cons_sorted hm
    simp only [map_assign]
    split_ifs with h1 h2
    · have hf : ((k', b') :: r).filter (fun kb => !decide (kb.1 = k)) = (k', b') :: r :=
        filter_ne_of_lt k _ (by
          intro x hx
          simp only [List.map_cons, List.mem_cons] at hx
          rcases hx with rfl | hx
          · exact h1
          · exact lt_trans h1 (hlt x hx))
      rw [hf, adj_view_cons]
    · subst h2
      have hf : r.filter (fun kb => !decide (kb.1 = k)) = r := filter_ne_of_lt k r hlt
      simp [adj_view_cons, List.filter_cons, hf]
    · have hk : k' ≠ k := fun h => h2 h.symm
      rw [List.filter_cons]
      simp only [hk, decide_False, Bool.not_false, if_true, adj_view_cons]
      refine ((ih hr).append_left _).trans ?_
      simp only [← List.append_assoc]
      exact List.Perm.append_right _ List.perm_append_comm

/-- Ordered assignment keeps the keys in ascending order. -/
theorem map_assign_keys {β : Type} (k : N) (b : β) (m : List (N × β)) :
    ∀ x, x ∈ (map_assign k b m).map Prod.fst ↔ x = k ∨ x ∈ m.map Prod.fst := by
  induction m with
  | nil => simp [map_assign]
  | cons kb r ih =>
    obtain ⟨k', b'⟩ := kb
    intro x
    simp only [map_assign]
    split_ifs with h1 h2
    · simp
    · subst h2; simp
    · simp only [List.map_cons, List.mem_cons, ih x]
      tauto

theorem map_assign_sorted {β : Type} (k : N) (b : β) (m : List (N × β))
    (hm : (m.map Prod.fst).Pairwise (· < ·)) :
    ((map_assign k b m).map Prod.fst).Pairwise (· < ·) := by
  induction m with
  | nil => simp [map_assign]
  | cons kb r ih =>
    obtain ⟨k', b'⟩ := kb
    obtain ⟨hlt, hr⟩ := keys_cons_sorted hm
    simp only [map_assign]
    split_ifs with h1 h2
    · simp only [List.map_cons, List.pairwise_cons]
      refine ⟨?_, ?_, hr⟩
      · intro x hx
        simp only [List.mem_cons] at hx
        rcases hx with rfl | hx
        · exact h1
        · exact lt_trans h1 (hlt x hx)
      · exact hlt
    · subst h2
      simpa [List.pairwise_cons] using hm
    · simp only [List.map_cons, List.pairwise_cons]
      refine ⟨?_, ih hr⟩
      intro x hx
      rcases (map_assign_keys k b r x).1 hx with rfl | hx
      · exact lt_of_le_of_ne (not_lt.1 h1) (fun h => h2 h.symm)
      · exact hlt x hx

theorem map_index_touch (k : N) (m : List (N × List (edge N E))) :
    map_index k (map_touch k m) = map_index k m := by
  unfold map_touch map_index
  cases h : map_find k m with
  | some b => simp [h]
  | none => simp [map_find_assign]

theorem map_assign_touch (k : N) (b : List (edge N E)) (m : List (N × List (edge N E))) :
    map_assign k b (map_touch k m) = map_assign k b m := by
  unfold map_touch
  cases h : map_find k m with
  | some b => rfl
  | none => exact map_assign_assign k b [] m

theorem map_touch_of_index_ne_nil (k : N) (m : List (N × List (edge N E)))
    (h : map_index k m ≠ []) : map_touch k m = m := by
  unfold map_touch
  cases hf : map_find k m with
  | some b => rfl
  | none => simp [map_index, hf] at h

/-- In a map, the edges seen under source `k` are those of the bucket `m[k]`. -/
theorem mem_edge_view_iff (k d : N) (w : Option E) (m : List (N × List (edge N E)))
    (hm : (m.map Prod.fst).Pairwise (· < ·)) :
    (k, d, w) ∈ adj_view (fun k e => (k, e.get_nodes.2, e.get_weight)) m ↔
      ∃ e ∈ map_index k m, e.get_nodes.2 = d ∧ e.get_weight = w := by
  rw [(adj_view_split _ k m hm).mem_iff, List.mem_append, List.mem_map, mem_adj_view]
  constructor
  · rintro (⟨e, he, heq⟩ | ⟨kb, hkb, e, _, heq⟩)
    · simp only [Prod.mk.injEq, true_and] at heq
      exact ⟨e, he, heq⟩
    · simp only [Prod.mk.injEq] at heq
      simp [heq.1] at hkb
  · rintro ⟨e, he, h1, h2⟩
    exact Or.inl ⟨e, he, by simp [h1, h2]⟩

end container_lemmas

/-! ## Lemmas on the rebuilding loops -/

theorem copy_edge_eq (e : edge N E) : copy_edge e = e := by
  cases e <;> rfl

theorem copy_if_perm (al : Nat → Nat) (keep : edge N E → Bool) (j : Nat)
    (es new_edges : List (edge N E)) :
    (copy_if al keep j es new_edges).Perm (es.filter keep ++ new_edges) := by
  induction es generalizing j new_edges with
  | nil => simp [copy_if]
  | cons e es ih =>
    simp only [copy_if]
    by_cases hk : keep e = true
    · rw [if_pos hk, List.filter_cons_of_pos hk, copy_edge_eq]
      refine (ih (j + 1) _).trans ?_
      refine (List.Perm.append_left _ (emplace_perm (al j) e new_edges)).trans ?_
      exact List.perm_middle
    · rw [if_neg hk, List.filter_cons_of_neg hk]
      exact ih (j + 1) _

theorem any_map_eq {α β : Type} (f : α → β) (p : β → Bool) (l : List α) :
    (l.map f).any p = l.any (fun a => p (f a)) := by
  induction l with
  | nil => rfl
  | cons a l ih => simp only [List.map_cons, List.any_cons, ih]

theorem adj_view_append {γ : Type} (f : N → edge N E → γ) (m₁ m₂ : List (N × List (edge N E))) :
    adj_view f (m₁ ++ m₂) = adj_view f m₁ ++ adj_view f m₂ := by
  simp [adj_view]

theorem edge_list_eq_map_entries (g : graph N E) :
    g.edge_list = g.entries.map (fun ke => (ke.1, ke.2.get_nodes.2, ke.2.get_weight)) := by
  simp only [graph.edge_list, graph.entries]
  induction g.adjacency_list_ with
  | nil => rfl
  | cons kb r ih =>
    obtain ⟨k, b⟩ := kb
    simp [adj_view_cons, ih]

section loop_lemmas
variable [LinearOrder N]

/-- Assigning a key greater than every key of the map appends the entry. -/
theorem map_assign_of_gt {β : Type} (k : N) (b : β) (m : List (N × β))
    (h : ∀ x ∈ m.map Prod.fst, x < k) : map_assign k b m = m ++ [(k, b)] := by
  induction m with
  | nil => rfl
  | cons kb r ih =>
    obtain ⟨k', b'⟩ := kb
    have hk : k' < k := h k' (by simp)
    have h1 : ¬ k < k' := not_lt.2 (le_of_lt hk)
    have h2 : ¬ k = k' := ne_of_gt hk
    simp only [map_assign, h1, h2, if_false, List.cons_append]
    rw [ih (fun x hx => h x (by simp at hx ⊢; exact Or.inr hx))]

theorem erase_node_loop_entries (al : Nat → Nat → Nat) (value : N) (i : Nat)
    (rest acc : List (N × List (edge N E)))
    (hlt : ∀ x ∈ acc.map Prod.fst, ∀ y ∈ rest.map Prod.fst, x < y)
    (hs : (rest.map Prod.fst).Pairwise (· < ·)) :
    (adj_view (fun k e => (k, e)) (erase_node_loop al value i rest acc)).Perm
      (adj_view (fun k e => (k, e)) acc ++
        (adj_view (fun k e => (k, e)) rest).filter (erase_node_keeps value)) ∧
    ∀ x, x ∈ (erase_node_loop al value i rest acc).map Prod.fst ↔
      x ∈ acc.map Prod.fst ∨ (x ∈ rest.map Prod.fst ∧ x ≠ value) := by
  induction rest generalizing i acc with
  | nil => simp [erase_node_loop, adj_view_nil]
  | cons kb r ih =>
    obtain ⟨k, b⟩ := kb
    obtain ⟨hkr, hr⟩ := keys_cons_sorted hs
    simp only [erase_node_loop]
    by_cases hk : k = value
    · rw [if_pos hk]
      have h := ih (i + 1) acc
        (fun x hx y hy => hlt x hx y (by simp at hy ⊢; exact Or.inr hy)) hr
      refine ⟨h.1.trans ?_, ?_⟩
      · rw [adj_view_cons, List.filter_append]
        have : (b.map (fun e => (k, e))).filter (erase_node_keeps value) = [] := by
          rw [List.filter_eq_nil_iff]
          intro ke hke
          obtain ⟨e, _, rfl⟩ := List.mem_map.1 hke
          simp [erase_node_keeps, hk]
        rw [this, List.nil_append]
      · intro x
        rw [h.2 x]
        simp only [List.map_cons, List.mem_cons]
        constructor
        · rintro (h | ⟨h1, h2⟩)
          · exact Or.inl h
          · exact Or.inr ⟨Or.inr h1, h2⟩
        · rintro (h | ⟨h1 | h1, h2⟩)
          · exact Or.inl h
          · exact absurd (h1.trans hk) h2
          · exact Or.inr ⟨h1, h2⟩
    · rw [if_neg hk]
      have hacc : ∀ x ∈ acc.map Prod.fst, x < k := fun x hx => hlt x hx k (by simp)
      rw [map_assign_of_gt k _ acc hacc]
      have h := ih (i + 1)
        (acc ++ [(k, copy_if (al i) (fun e => !decide (e.get_nodes.2 = value)) 0 b [])])
        (by
          intro x hx y hy
          simp only [List.map_append, List.map_cons, List.map_nil, List.mem_append,
            List.mem_singleton] at hx
          rcases hx with hx | rfl
          · exact hlt x hx y (by simp at hy ⊢; exact Or.inr hy)
          · exact hkr y hy) hr
      refine ⟨h.1.trans ?_, ?_⟩
      · rw [adj_view_append, adj_view_cons, adj_view_cons, adj_view_nil, List.append_nil,
          List.filter_append, List.append_assoc]
        refine List.Perm.append_left _ (List.Perm.append_right _ ?_)
        have hc := copy_if_perm (al i) (fun e => !decide (e.get_nodes.2 = value)) 0 b []
        rw [List.append_nil] at hc
        refine (hc.map _).trans ?_
        rw [List.filter_map]
        have : (erase_node_keeps value ∘ fun e : edge N E => (k, e)) =
            (fun e => !decide (e.get_nodes.2 = value)) := by
          funext e
          simp [erase_node_keeps, hk]
        rw [this]
      · intro x
        rw [h.2 x]
        simp only [List.map_append, List.map_cons, List.map_nil, List.mem_append,
          List.mem_cons, List.not_mem_nil, or_false]
        constructor
        · rintro ((h | rfl) | ⟨h1, h2⟩)
          · exact Or.inl h
          · exact Or.inr ⟨Or.inl rfl, hk⟩
          · exact Or.inr ⟨Or.inr h1, h2⟩
        · rintro (h | ⟨rfl | h1, h2⟩)
          · exact Or.inl (Or.inl h)
          · exact Or.inl (Or.inr rfl)
          · exact Or.inr ⟨h1, h2⟩

variable [LinearOrder E]

theorem erase_edge_loop_entries (al : Nat → Nat → Nat) (src dst : N) (weight : Option E)
    (i : Nat) (rest acc : List (N × List (edge N E))) (flag : Bool)
    (hlt : ∀ x ∈ acc.map Prod.fst, ∀ y ∈ rest.map Prod.fst, x < y)
    (hs : (rest.map Prod.fst).Pairwise (· < ·)) :
    (adj_view (fun k e => (k, e)) (erase_edge_loop al src dst weight i rest (acc, flag)).1).Perm
      (adj_view (fun k e => (k, e)) acc ++
        (adj_view (fun k e => (k, e)) rest).filter
          (fun ke => !erase_edge_match src dst weight ke.1 ke.2)) ∧
    (erase_edge_loop al src dst weight i rest (acc, flag)).2 =
      (flag || (adj_view (fun k e => (k, e)) rest).any
        (fun ke => erase_edge_match src dst weight ke.1 ke.2)) ∧
    ∀ x ∈ (erase_edge_loop al src dst weight i rest (acc, flag)).1.map Prod.fst,
      x ∈ acc.map Prod.fst ∨ x ∈ rest.map Prod.fst := by
  induction rest generalizing i acc flag with
  | nil => simp [erase_edge_loop, adj_view_nil]
  | cons kb r ih =>
    obtain ⟨k, b⟩ := kb
    obtain ⟨hkr, hr⟩ := keys_cons_sorted hs
    have hacc : ∀ x ∈ acc.map Prod.fst, x < k := fun x hx => hlt x hx k (by simp)
    have hc := copy_if_perm (al i) (fun e => !erase_edge_match src dst weight k e) 0 b []
    rw [List.append_nil] at hc
    have hfilter : (b.map (fun e => (k, e))).filter
        (fun ke => !erase_edge_match src dst weight ke.1 ke.2) =
        (b.filter (fun e => !erase_edge_match src dst weight k e)).map (fun e => (k, e)) := by
      rw [List.filter_map]; rfl
    have hany : (b.map (fun e => (k, e))).any
        (fun ke => erase_edge_match src dst weight ke.1 ke.2) =
        b.any (erase_edge_match src dst weight k) := by
      exact any_map_eq _ _ b
    simp only [erase_edge_loop]
    by_cases hempty :
        (copy_if (al i) (fun e => !erase_edge_match src dst weight k e) 0 b []).isEmpty = true
    · rw [if_pos hempty]
      have hnil : b.filter (fun e => !erase_edge_match src dst weight k e) = [] := by
        have h0 : copy_if (al i) (fun e => !erase_edge_match src dst weight k e) 0 b [] = [] :=
          List.isEmpty_iff.1 hempty
        rw [h0] at hc
        exact List.perm_nil.1 hc.symm
      have h := ih (i + 1) acc (flag || b.any (erase_edge_match src dst weight k))
        (fun x hx y hy => hlt x hx y (by simp at hy ⊢; exact Or.inr hy)) hr
      refine ⟨h.1.trans ?_, ?_, ?_⟩
      · rw [adj_view_cons, List.filter_append, hfilter, hnil, List.map_nil, List.nil_append]
      · rw [h.2.1, adj_view_cons, List.any_append, hany, Bool.or_assoc]
      · intro x hx
        rcases h.2.2 x hx with h1 | h1
        · exact Or.inl h1
        · exact Or.inr (by simp at h1 ⊢; exact Or.inr h1)
    · rw [if_neg hempty, map_assign_of_gt k _ acc hacc]
      have h := ih (i + 1)
        (acc ++ [(k, copy_if (al i) (fun e => !erase_edge_match src dst weight k e) 0 b [])])
        (flag || b.any (erase_edge_match src dst weight k))
        (by
          intro x hx y hy
          simp only [List.map_append, List.map_cons, List.map_nil, List.mem_append,
            List.mem_cons, List.not_mem_nil, or_false] at hx
          rcases hx with hx | rfl
          · exact hlt x hx y (by simp at hy ⊢; exact Or.inr hy)
          · exact hkr y hy) hr
      refine ⟨h.1.trans ?_, ?_, ?_⟩
      · rw [adj_view_append, adj_view_cons, adj_view_cons, adj_view_nil, List.append_nil,
          List.filter_append, List.append_assoc, hfilter]
        exact List.Perm.append_left _ (List.Perm.append_right _ (hc.map _))
      · rw [h.2.1, adj_view_cons, List.any_append, hany, Bool.or_assoc]
      · intro x hx
        rcases h.2.2 x hx with h1 | h1
        · simp only [List.map_append, List.map_cons, List.map_nil, List.mem_append,
            List.mem_cons, List.not_mem_nil, or_false] at h1
          rcases h1 with h1 | rfl
          · exact Or.inl h1
          · exact Or.inr (by simp)
        · exact Or.inr (by simp at h1 ⊢; exact Or.inr h1)

end loop_lemmas

/-! ## Modifiers -/

section modifier_theorems
variable [LinearOrder N] [LinearOrder E]

/-- C1. `insert_edge (src, dst, w)` with both endpoints in the node set returns a boolean,
which is true exactly when the graph has no edge from `src` to `dst` with this optional
weight. On `true` the node set is unchanged, the edges are those of `g` plus
`(src, dst, w)` and `is_connected (src, dst)` holds; on `false` the graph is unchanged.
Edges of the pair with another weight or weightedness stay next to the requested one. -/
theorem insert_edge_spec (pos : Nat) (g : graph N E) (src dst : N) (weight : Option E)
    (hwf : g.WF) (hs : src ∈ g.nodes_) (hd : dst ∈ g.nodes_) :
    ∃ b g', g.insert_edge pos src dst weight = (.ok b, g') ∧
      (b = true ↔ (src, dst, weight) ∉ g.edge_list) ∧
      (b = true → g'.nodes_ = g.nodes_ ∧
        g'.edge_list.Perm ((src, dst, weight) :: g.edge_list) ∧
        g'.is_connected src dst = .ok true) ∧
      (b = false → g' = g) ∧
      (∀ w', (src, dst, w') ∈ g.edge_list →
        (src, dst, w') ∈ g'.edge_list ∧ (src, dst, weight) ∈ g'.edge_list) := by
  have hm := hwf.2
  have hmem := mem_edge_view_iff src dst weight g.adjacency_list_ hm
  have hguard : (!g.is_node src || !g.is_node dst) = false := by
    simp [graph.is_node, hs, hd]
  unfold graph.insert_edge
  rw [hguard]
  simp only [Bool.false_eq_true, if_false, map_index_touch, map_assign_touch]
  by_cases hany : (map_index src g.adjacency_list_).any
      (fun e => decide (e.get_nodes.2 = dst) && decide (e.get_weight = weight)) = true
  · -- an identical edge is there
    have hin : (src, dst, weight) ∈ g.edge_list := by
      refine hmem.2 ?_
      obtain ⟨e, he, hp⟩ := List.any_eq_true.1 hany
      exact ⟨e, he, by simpa using hp⟩
    have hne : map_index src g.adjacency_list_ ≠ [] := by
      intro h0
      rw [h0] at hany
      simp at hany
    have htouch := map_touch_of_index_ne_nil src g.adjacency_list_ hne
    refine ⟨false, g, ?_, ?_, ?_, ?_, ?_⟩
    · rw [if_pos hany, htouch]
    · simp [hin]
    · simp
    · simp
    · intro w' hw'
      exact ⟨hw', hin⟩
  · -- no identical edge
    have hnin : (src, dst, weight) ∉ g.edge_list := by
      intro hin
      obtain ⟨e, he, h1, h2⟩ := hmem.1 hin
      exact hany (List.any_eq_true.2 ⟨e, he, by simp [h1, h2]⟩)
    rw [if_neg hany]
    -- the two branches build the two edge classes; both store `dst` and `weight`
    have key : ∀ e : edge N E, e.get_nodes.2 = dst → e.get_weight = weight →
        let g' : graph N E := graph.mk g.nodes_
          (map_assign src (emplace pos e (map_index src g.adjacency_list_)) g.adjacency_list_)
        g'.nodes_ = g.nodes_ ∧
        g'.edge_list.Perm ((src, dst, weight) :: g.edge_list) ∧
        g'.is_connected src dst = .ok true := by
      intro e h1 h2
      refine ⟨rfl, ?_, ?_⟩
      · have hA := adj_view_assign (fun k e => (k, e.get_nodes.2, e.get_weight)) src
          (emplace pos e (map_index src g.adjacency_list_)) g.adjacency_list_ hm
        have hS := adj_view_split (fun k e => (k, e.get_nodes.2, e.get_weight)) src
          g.adjacency_list_ hm
        have hE := (emplace_perm pos e (map_index src g.adjacency_list_)).map
          (fun e => (src, e.get_nodes.2, e.get_weight))
        simp only [List.map_cons, h1, h2] at hE
        simp only [graph.edge_list]
        exact (hA.trans (hE.append_right _)).trans (List.Perm.cons _ hS.symm)
      · simp only [graph.is_connected, graph.is_node, hs, hd, decide_True, Bool.not_true,
          Bool.or_self, Bool.false_eq_true, if_false, map_find_assign]
        congr 1
        exact List.any_eq_true.2 ⟨e, (mem_emplace pos e e _).2 (Or.inl rfl), by simp [h1]⟩
    cases weight with
    | none =>
      have hk := key (.unweighted_edge src dst) rfl rfl
      refine ⟨true, _, rfl, by simp [hnin], fun _ => hk, by simp, ?_⟩
      intro w' hw'
      exact ⟨(hk.2.1.mem_iff).2 (List.mem_cons_of_mem _ hw'),
        (hk.2.1.mem_iff).2 (List.mem_cons_self _ _)⟩
    | some w =>
      have hk := key (.weighted_edge src dst w) rfl rfl
      refine ⟨true, _, rfl, by simp [hnin], fun _ => hk, by simp, ?_⟩
      intro w' hw'
      exact ⟨(hk.2.1.mem_iff).2 (List.mem_cons_of_mem _ hw'),
        (hk.2.1.mem_iff).2 (List.mem_cons_self _ _)⟩

/-- C1, at a concrete graph: nodes 1, 2, 3 and the edge 1 -> 2 of weight 10, into
which the unweighted edge 1 -> 2 is inserted. -/
theorem insert_edge_spec_witness :
    ∃ b g', (graph.mk [1, 2, 3] [(1, [.weighted_edge 1 2 10])] : graph Nat Int).insert_edge 0 1 2 none
        = (.ok b, g') ∧
      (b = true ↔
        (1, 2, none) ∉ (graph.mk [1, 2, 3] [(1, [.weighted_edge 1 2 10])] : graph Nat Int).edge_list) ∧
      (b = true → g'.nodes_ = [1, 2, 3] ∧
        g'.edge_list.Perm ((1, 2, none) ::
          (graph.mk [1, 2, 3] [(1, [.weighted_edge 1 2 10])] : graph Nat Int).edge_list) ∧
        g'.is_connected 1 2 = .ok true) ∧
      (b = false → g' = graph.mk [1, 2, 3] [(1, [.weighted_edge 1 2 10])]) ∧
      (∀ w', (1, 2, w') ∈
          (graph.mk [1, 2, 3] [(1, [.weighted_edge 1 2 10])] : graph Nat Int).edge_list →
        (1, 2, w') ∈ g'.edge_list ∧ (1, 2, none) ∈ g'.edge_list) :=
  insert_edge_spec 0 (graph.mk [1, 2, 3] [(1, [.weighted_edge 1 2 10])]) 1 2 none
    ⟨by decide, by decide⟩ (by decide) (by decide)

end modifier_theorems

section erase_node_theorems
variable [LinearOrder N]

/-- C4. `erase_node (v)` on a value that is not a node returns false and changes
nothing. On a node it returns true, the node set loses `v`, and the edges that remain are
those of `g` whose source (the bucket they are stored under) and destination both differ
from `v`: as stored objects and as (source, destination, weight) triples. -/
theorem erase_node_spec (al : Nat → Nat → Nat) (g : graph N E) (value : N) (hwf : g.WF) :
    (value ∉ g.nodes_ → g.erase_node al value = (false, g)) ∧
    (value ∈ g.nodes_ → ∃ g', g.erase_node al value = (true, g') ∧
      g'.nodes_ = g.nodes_.filter (fun x => !decide (x = value)) ∧
      (∀ x, x ∈ g'.nodes_ ↔ x ∈ g.nodes_ ∧ x ≠ value) ∧
      g'.entries.Perm (g.entries.filter (erase_node_keeps value)) ∧
      g'.edge_list.Perm
        (g.edge_list.filter (fun t => !decide (t.1 = value) && !decide (t.2.1 = value))) ∧
      (∀ t, t ∈ g'.edge_list ↔ t ∈ g.edge_list ∧ t.1 ≠ value ∧ t.2.1 ≠ value)) := by
  constructor
  · intro hv
    simp [graph.erase_node, graph.is_node, hv]
  · intro hv
    have hloop := (erase_node_loop_entries al value 0 g.adjacency_list_ []
      (by simp) hwf.2).1
    rw [adj_view_nil, List.nil_append] at hloop
    have hedges : (graph.mk (set_erase value g.nodes_)
        (erase_node_loop al value 0 g.adjacency_list_ []) : graph N E).edge_list.Perm
        (g.edge_list.filter (fun t => !decide (t.1 = value) && !decide (t.2.1 = value))) := by
      rw [edge_list_eq_map_entries, edge_list_eq_map_entries g, List.filter_map]
      exact List.Perm.map _ hloop
    refine ⟨graph.mk (set_erase value g.nodes_) (erase_node_loop al value 0 g.adjacency_list_ []),
      by simp [graph.erase_node, graph.is_node, hv], rfl, ?_, hloop, hedges, ?_⟩
    · intro x
      simp [set_erase, List.mem_filter]
    · intro t
      rw [hedges.mem_iff, List.mem_filter]
      simp

/-- C4, at a concrete graph: nodes 1, 2, 3 with the edges 1 -> 2 (10), 2 -> 3 (unweighted)
and 3 -> 1 (5), from which node 2 is erased. -/
theorem erase_node_spec_witness :
    (2 ∉ [1, 2, 3] → (graph.mk [1, 2, 3]
        [(1, [.weighted_edge 1 2 10]), (2, [.unweighted_edge 2 3]), (3, [.weighted_edge 3 1 5])] :
        graph Nat Int).erase_node (fun _ _ => 0) 2 = (false, graph.mk [1, 2, 3]
        [(1, [.weighted_edge 1 2 10]), (2, [.unweighted_edge 2 3]), (3, [.weighted_edge 3 1 5])])) ∧
    (2 ∈ [1, 2, 3] → ∃ g', (graph.mk [1, 2, 3]
        [(1, [.weighted_edge 1 2 10]), (2, [.unweighted_edge 2 3]), (3, [.weighted_edge 3 1 5])] :
        graph Nat Int).erase_node (fun _ _ => 0) 2 = (true, g') ∧
      g'.nodes_ = [1, 2, 3].filter (fun x => !decide (x = 2)) ∧
      (∀ x, x ∈ g'.nodes_ ↔ x ∈ [1, 2, 3] ∧ x ≠ 2) ∧
      g'.entries.Perm ((graph.mk [1, 2, 3]
        [(1, [.weighted_edge 1 2 10]), (2, [.unweighted_edge 2 3]), (3, [.weighted_edge 3 1 5])] :
        graph Nat Int).entries.filter (erase_node_keeps 2)) ∧
      g'.edge_list.Perm ((graph.mk [1, 2, 3]
        [(1, [.weighted_edge 1 2 10]), (2, [.unweighted_edge 2 3]), (3, [.weighted_edge 3 1 5])] :
        graph Nat Int).edge_list.filter (fun t => !decide (t.1 = 2) && !decide (t.2.1 = 2))) ∧
      (∀ t, t ∈ g'.edge_list ↔ t ∈ (graph.mk [1, 2, 3]
        [(1, [.weighted_edge 1 2 10]), (2, [.unweighted_edge 2 3]), (3, [.weighted_edge 3 1 5])] :
        graph Nat Int).edge_list ∧ t.1 ≠ 2 ∧ t.2.1 ≠ 2)) :=
  erase_node_spec (fun _ _ => 0) (graph.mk [1, 2, 3]
    [(1, [.weighted_edge 1 2 10]), (2, [.unweighted_edge 2 3]), (3, [.weighted_edge 3 1 5])]) 2
    ⟨by decide, by decide⟩

end erase_node_theorems

section erase_edge_theorems
variable [LinearOrder N] [LinearOrder E]

/-- C5. On a graph without duplicate edges, `erase_edge (src, dst, w)` with `src` and
`dst` in the node set returns a boolean that is true exactly when the graph has the
edge `(src, dst, w)`; the node set is unchanged and the edges are those of `g` minus that
one edge, every other edge (another weight, another weightedness, another destination or
another source) being kept. -/
theorem erase_edge_spec (al : Nat → Nat → Nat) (g : graph N E) (src dst : N)
    (weight : Option E) (hwf : g.WF) (hnd : g.edge_list.Nodup)
    (hs : src ∈ g.nodes_) (hd : dst ∈ g.nodes_) :
    ∃ b g', g.erase_edge al src dst weight = (.ok b, g') ∧
      (b = true ↔ (src, dst, weight) ∈ g.edge_list) ∧
      g'.nodes_ = g.nodes_ ∧
      g'.edge_list.Perm (g.edge_list.erase (src, dst, weight)) ∧
      (∀ t, t ∈ g'.edge_list ↔ t ∈ g.edge_list ∧ t ≠ (src, dst, weight)) := by
  have hloop := erase_edge_loop_entries al src dst weight 0 g.adjacency_list_ [] false
    (by simp) hwf.2
  rw [adj_view_nil, List.nil_append, Bool.false_or] at hloop
  have hguard : (!g.is_node src || !g.is_node dst) = false := by
    simp [graph.is_node, hs, hd]
  have hproj : ∀ ke : N × edge N E,
      (!erase_edge_match src dst weight ke.1 ke.2) =
        ((fun t : N × N × Option E => t != (src, dst, weight)) ∘
          (fun ke : N × edge N E => (ke.1, ke.2.get_nodes.2, ke.2.get_weight))) ke := by
    intro ke
    rw [Bool.eq_iff_iff]
    simp only [erase_edge_match, Function.comp, Bool.not_eq_true', Bool.and_eq_false_iff,
      decide_eq_false_iff_not, bne_iff_ne, ne_eq, Prod.mk.injEq]
    tauto
  have hedges : (graph.mk g.nodes_
      (erase_edge_loop al src dst weight 0 g.adjacency_list_ ([], false)).1 :
        graph N E).edge_list.Perm (g.edge_list.erase (src, dst, weight)) := by
    rw [hnd.erase_eq_filter, edge_list_eq_map_entries, edge_list_eq_map_entries g,
      List.filter_map]
    refine List.Perm.map _ ?_
    refine hloop.1.trans ?_
    rw [show (fun ke : N × edge N E => !erase_edge_match src dst weight ke.1 ke.2) = _ from
      funext hproj]
    rfl
  refine ⟨(erase_edge_loop al src dst weight 0 g.adjacency_list_ ([], false)).2,
    graph.mk g.nodes_ (erase_edge_loop al src dst weight 0 g.adjacency_list_ ([], false)).1,
    by simp only [graph.erase_edge, hguard]; rfl, ?_, rfl, hedges, ?_⟩
  · rw [hloop.2.1, List.any_eq_true, edge_list_eq_map_entries, List.mem_map]
    constructor
    · rintro ⟨ke, hke, hm⟩
      refine ⟨ke, hke, ?_⟩
      simp only [erase_edge_match, Bool.and_eq_true, decide_eq_true_eq] at hm
      simp [hm.1.1, hm.1.2, hm.2]
    · rintro ⟨ke, hke, hm⟩
      refine ⟨ke, hke, ?_⟩
      simp only [Prod.mk.injEq] at hm
      simp [erase_edge_match, hm.1, hm.2.1, hm.2.2]
  · intro t
    rw [hedges.mem_iff, hnd.mem_erase_iff]
    tauto

/-- C5, at a concrete graph: nodes 1, 2, 3 with the edges 1 -> 2 (unweighted), 1 -> 2 (10)
and 3 -> 2 (10), from which the edge 1 -> 2 of weight 10 is erased. -/
theorem erase_edge_spec_witness :
    ∃ b g', (graph.mk [1, 2, 3]
        [(1, [.unweighted_edge 1 2, .weighted_edge 1 2 10]), (3, [.weighted_edge 3 2 10])] :
        graph Nat Int).erase_edge (fun _ _ => 0) 1 2 (some 10) = (.ok b, g') ∧
      (b = true ↔ (1, 2, some 10) ∈ (graph.mk [1, 2, 3]
        [(1, [.unweighted_edge 1 2, .weighted_edge 1 2 10]), (3, [.weighted_edge 3 2 10])] :
        graph Nat Int).edge_list) ∧
      g'.nodes_ = [1, 2, 3] ∧
      g'.edge_list.Perm ((graph.mk [1, 2, 3]
        [(1, [.unweighted_edge 1 2, .weighted_edge 1 2 10]), (3, [.weighted_edge 3 2 10])] :
        graph Nat Int).edge_list.erase (1, 2, some 10)) ∧
      (∀ t, t ∈ g'.edge_list ↔ t ∈ (graph.mk [1, 2, 3]
        [(1, [.unweighted_edge 1 2, .weighted_edge 1 2 10]), (3, [.weighted_edge 3 2 10])] :
        graph Nat Int).edge_list ∧ t ≠ (1, 2, some 10)) :=
  erase_edge_spec (fun _ _ => 0) (graph.mk [1, 2, 3]
    [(1, [.unweighted_edge 1 2, .weighted_edge 1 2 10]), (3, [.weighted_edge 3 2 10])])
    1 2 (some 10) ⟨by decide, by decide⟩ (by decide) (by decide) (by decide)

/-- C6. When `src` or `dst` is not in the node set, `insert_edge (src, dst, w)` and
`erase_edge (src, dst, w)` throw the `std::runtime_error` of their guard for every
optional weight, and `merge_replace_node (src, dst)` throws the one of its guard; in all
three cases the object is left as it was. -/
theorem absent_endpoint_throws (pos : Nat) (al : Nat → Nat → Nat) (g : graph N E)
    (src dst : N) (weight : Option E) (h : src ∉ g.nodes_ ∨ dst ∉ g.nodes_) :
    g.insert_edge pos src dst weight = (.error (.runtime_error insert_edge_what), g) ∧
    g.erase_edge al src dst weight = (.error (.runtime_error erase_edge_what), g) ∧
    g.merge_replace_node al src dst =
      (.error (.runtime_error merge_replace_node_what), g) := by
  have hguard : (!g.is_node src || !g.is_node dst) = true := by
    rcases h with h | h <;> simp [graph.is_node, h]
  refine ⟨?_, ?_, ?_⟩
  · simp only [graph.insert_edge, hguard, if_true]
  · simp only [graph.erase_edge, hguard, if_true]
  · simp only [graph.merge_replace_node, hguard, if_true]

/-- C6, at a concrete graph: nodes 1, 2, 3 with the edge 1 -> 2 (10); node 4 is absent. -/
theorem absent_endpoint_throws_witness :
    (graph.mk [1, 2, 3] [(1, [.weighted_edge 1 2 10])] : graph Nat Int).insert_edge 0 1 4 (some 30)
      = (.error (.runtime_error insert_edge_what), graph.mk [1, 2, 3] [(1, [.weighted_edge 1 2 10])]) ∧
    (graph.mk [1, 2, 3] [(1, [.weighted_edge 1 2 10])] : graph Nat Int).erase_edge (fun _ _ => 0)
        1 4 (some 30)
      = (.error (.runtime_error erase_edge_what), graph.mk [1, 2, 3] [(1, [.weighted_edge 1 2 10])]) ∧
    (graph.mk [1, 2, 3] [(1, [.weighted_edge 1 2 10])] : graph Nat Int).merge_replace_node
        (fun _ _ => 0) 1 4
      = (.error (.runtime_error merge_replace_node_what),
          graph.mk [1, 2, 3] [(1, [.weighted_edge 1 2 10])]) :=
  absent_endpoint_throws 0 (fun _ _ => 0) (graph.mk [1, 2, 3] [(1, [.weighted_edge 1 2 10])])
    1 4 (some 30) (Or.inr (by decide))

/-- C2. `replace_node` does not rename the destination of an incoming edge. The graph is
built from nodes 1, 2 and `insert_edge (2, 1, 10)`; before the call `is_connected (2, 1)`
is true. `replace_node (1, 3)` returns true and the node set becomes 2, 3, but the one
edge still ends at 1, which is no longer a node, and `is_connected (2, 3)` is false.
This holds wherever the allocator places the objects. -/
theorem replace_node_keeps_old_destination (al : Nat → Nat → Nat) (pos : Nat) :
    ((graph.of_list [1, 2] : graph Nat Int).insert_edge pos 2 1 (some 10)).2.is_connected 2 1
      = .ok true ∧
    ((graph.of_list [1, 2] : graph Nat Int).insert_edge pos 2 1 (some 10)).2.replace_node al 1 3
      = (.ok true, graph.mk [2, 3] [(2, [.weighted_edge 2 1 10])]) ∧
    (((graph.of_list [1, 2] : graph Nat Int).insert_edge pos 2 1 (some 10)).2.replace_node
      al 1 3).2.edge_list = [(2, 1, some 10)] ∧
    (((graph.of_list [1, 2] : graph Nat Int).insert_edge pos 2 1 (some 10)).2.replace_node
      al 1 3).2.is_connected 2 3 = .ok false := by
  cases pos <;> exact ⟨rfl, rfl, rfl, rfl⟩

/-- C3. `merge_replace_node` loses the outgoing edges of `old` when `new` has a bucket
of its own, and does not rename the destination of an incoming edge. With nodes 1, 2, 3
and the edges 1 -> 2 (10) and 3 -> 2 (20), `merge_replace_node (1, 3)` leaves the single
edge 3 -> 2 (20): the edge that left 1 is gone instead of leaving 3. With nodes 1, 2, 3
and the edge 2 -> 1 (10), the edge still ends at 1 afterwards. -/
theorem merge_replace_node_drops_edges (al : Nat → Nat → Nat) (p q : Nat) :
    ((((graph.of_list [1, 2, 3] : graph Nat Int).insert_edge p 1 2 (some 10)).2.insert_edge
      q 3 2 (some 20)).2.merge_replace_node al 1 3)
      = (.ok (), graph.mk [2, 3] [(3, [.weighted_edge 3 2 20])]) ∧
    (3, 2, some 10) ∉
      ((((graph.of_list [1, 2, 3] : graph Nat Int).insert_edge p 1 2 (some 10)).2.insert_edge
        q 3 2 (some 20)).2.merge_replace_node al 1 3).2.edge_list ∧
    (((graph.of_list [1, 2, 3] : graph Nat Int).insert_edge p 2 1 (some 10)).2.merge_replace_node
      al 1 3) = (.ok (), graph.mk [2, 3] [(2, [.weighted_edge 2 1 10])]) := by
  have h1 : ((((graph.of_list [1, 2, 3] : graph Nat Int).insert_edge p 1 2 (some 10)).2.insert_edge
      q 3 2 (some 20)).2.merge_replace_node al 1 3)
      = (.ok (), graph.mk [2, 3] [(3, [.weighted_edge 3 2 20])]) := by
    cases p <;> cases q <;> rfl
  refine ⟨h1, ?_, ?_⟩
  · rw [h1]; decide
  · cases p <;> rfl

end erase_edge_theorems

/-! ## Accessors and the cursor -/

/-- The graph of nodes 1, 2, 3 after `insert_edge (1, 2, 10)` and `insert_edge (1, 3, 20)`
has one of two layouts, according to which of the two pointers is the smaller. -/
theorem two_edges_layout (p q : Nat) :
    (((graph.of_list [1, 2, 3] : graph Nat Int).insert_edge p 1 2 (some 10)).2.insert_edge
      q 1 3 (some 20)).2 = graph.mk [1, 2, 3] [(1, [.weighted_edge 1 3 20, .weighted_edge 1 2 10])] ∨
    (((graph.of_list [1, 2, 3] : graph Nat Int).insert_edge p 1 2 (some 10)).2.insert_edge
      q 1 3 (some 20)).2 = graph.mk [1, 2, 3] [(1, [.weighted_edge 1 2 10, .weighted_edge 1 3 20])] := by
  have h1 : ((graph.of_list [1, 2, 3] : graph Nat Int).insert_edge p 1 2 (some 10)).2
      = graph.mk [1, 2, 3] [(1, [.weighted_edge 1 2 10])] := by
    cases p <;> rfl
  rw [h1]
  have h2 : ((graph.mk [1, 2, 3] [(1, [.weighted_edge 1 2 10])] : graph Nat Int).insert_edge
      q 1 3 (some 20)).2 = graph.mk [1, 2, 3]
        [(1, emplace q (.weighted_edge 1 3 20) [.weighted_edge 1 2 10])] := rfl
  rw [h2]
  rcases emplace_singleton q (edge.weighted_edge 1 3 (20 : Int)) (edge.weighted_edge (1 : Nat) 2 10)
    with h | h <;> rw [h] <;> simp

/-- C7. `is_connected` on two nodes of which the source never had an edge inserted: the
graph of nodes 1, 2 has no bucket for 1, `adjacency_list_.at (1)` throws
`std::out_of_range`, and no boolean is returned. -/
theorem is_connected_without_bucket :
    (graph.of_list [1, 2] : graph Nat Int).is_node 1 = true ∧
    (graph.of_list [1, 2] : graph Nat Int).is_node 2 = true ∧
    (graph.of_list [1, 2] : graph Nat Int).is_connected 1 2 = .error .out_of_range := by
  decide

/-- C8. `edges (src, dst)` returns the edges of `src` to every destination. With nodes
1, 2, 3 and the edges 1 -> 2 (10) and 1 -> 3 (20), `edges (1, 2)` returns both, wherever
the allocator places the two objects. -/
theorem edges_returns_other_destinations (p q : Nat) :
    (((graph.of_list [1, 2, 3] : graph Nat Int).insert_edge p 1 2 (some 10)).2.insert_edge
      q 1 3 (some 20)).2.edges 1 2
      = .ok [.weighted_edge 1 2 10, .weighted_edge 1 3 20] := by
  rcases two_edges_layout p q with h | h <;> rw [h] <;> decide

/-- C9. `connections` on a node that never had an edge inserted: the graph of the single
node 1 has no bucket for 1, `adjacency_list_.at (1)` throws `std::out_of_range`, and no
list is returned. -/
theorem connections_without_bucket :
    (graph.of_list [1] : graph Nat Int).is_node 1 = true ∧
    (graph.of_list [1] : graph Nat Int).connections 1 = .error .out_of_range := by
  decide

/-- C10. `find` hands the position of the matching edge to the cursor constructor, which
resets it to the first edge of the bucket. With nodes 1, 2, 3 and the edges 1 -> 2 (10)
and 1 -> 3 (20), `find (1, 2, 10)` and `find (1, 3, 20)` return the same cursor, so one of
them dereferences to the other edge: which one depends on the order of the two pointers. -/
theorem find_returns_first_of_bucket (fuel p q : Nat) :
    (((graph.of_list [1, 2, 3] : graph Nat Int).insert_edge p 1 2 (some 10)).2.insert_edge
        q 1 3 (some 20)).2.find fuel 1 2 (some 10) =
      (((graph.of_list [1, 2, 3] : graph Nat Int).insert_edge p 1 2 (some 10)).2.insert_edge
        q 1 3 (some 20)).2.find fuel 1 3 (some 20) ∧
    (((((graph.of_list [1, 2, 3] : graph Nat Int).insert_edge p 1 2 (some 10)).2.insert_edge
        q 1 3 (some 20)).2.find fuel 1 2 (some 10)).bind
      (iterator.deref (((graph.of_list [1, 2, 3] : graph Nat Int).insert_edge p 1 2
        (some 10)).2.insert_edge q 1 3 (some 20)).2) = some (1, 3, some 20) ∨
     ((((graph.of_list [1, 2, 3] : graph Nat Int).insert_edge p 1 2 (some 10)).2.insert_edge
        q 1 3 (some 20)).2.find fuel 1 3 (some 20)).bind
      (iterator.deref (((graph.of_list [1, 2, 3] : graph Nat Int).insert_edge p 1 2
        (some 10)).2.insert_edge q 1 3 (some 20)).2) = some (1, 2, some 10)) := by
  rcases two_edges_layout p q with h | h <;> rw [h]
  · exact ⟨rfl, Or.inl rfl⟩
  · exact ⟨rfl, Or.inr rfl⟩

/-! ## Traversal -/

theorem iterator_eq_self (it : iterator) : it.eq it = true := by
  simp [iterator.eq]

theorem end_without_edges (g : graph N E) (h : skip_empty 0 g.adjacency_list_ = g.adjacency_list_.length)
    (fuel : Nat) : g.end_ fuel = none := by
  induction fuel with
  | zero => rfl
  | succ n ih => simp only [graph.end_, h, if_true, ih]

theorem construct_of_ne (i n : Nat) (e : Nat × Nat) (h : i ≠ n) :
    iterator.construct i n e = ⟨i, n, (i, 0)⟩ := by
  simp [iterator.construct, h]

/-- For every graph, `begin ()` and `end ()` are the same cursor. -/
theorem begin_eq_end (g : graph N E) (fuel : Nat) : g.begin_ (fuel + 1) = g.end_ (fuel + 1) := by
  by_cases h : skip_empty 0 g.adjacency_list_ = g.adjacency_list_.length
  · simp only [graph.begin_, h, if_true]
  · simp only [graph.begin_, graph.end_, h, if_false, construct_of_ne _ _ _ h]

/-- The graph of nodes 1, 2, 3, 4 after `insert_edge (1, 2, 10)`, `insert_edge (1, 3, 20)` and
`insert_edge (4, 3)` has one of two layouts. -/
theorem three_edges_layout (p q r : Nat) :
    ((((graph.of_list [1, 2, 3, 4] : graph Nat Int).insert_edge p 1 2 (some 10)).2.insert_edge
      q 1 3 (some 20)).2.insert_edge r 4 3 none).2 = graph.mk [1, 2, 3, 4]
        [(1, [.weighted_edge 1 3 20, .weighted_edge 1 2 10]), (4, [.unweighted_edge 4 3])] ∨
    ((((graph.of_list [1, 2, 3, 4] : graph Nat Int).insert_edge p 1 2 (some 10)).2.insert_edge
      q 1 3 (some 20)).2.insert_edge r 4 3 none).2 = graph.mk [1, 2, 3, 4]
        [(1, [.weighted_edge 1 2 10, .weighted_edge 1 3 20]), (4, [.unweighted_edge 4 3])] := by
  have h1 : ((graph.of_list [1, 2, 3, 4] : graph Nat Int).insert_edge p 1 2 (some 10)).2
      = graph.mk [1, 2, 3, 4] [(1, [.weighted_edge 1 2 10])] := by
    cases p <;> rfl
  rw [h1]
  have h2 : ((graph.mk [1, 2, 3, 4] [(1, [.weighted_edge 1 2 10])] : graph Nat Int).insert_edge
      q 1 3 (some 20)).2 = graph.mk [1, 2, 3, 4]
        [(1, emplace q (.weighted_edge 1 3 20) [.weighted_edge 1 2 10])] := rfl
  rw [h2]
  rcases emplace_singleton q (edge.weighted_edge 1 3 (20 : Int)) (edge.weighted_edge (1 : Nat) 2 10)
    with h | h <;> rw [h]
  · left; cases r <;> rfl
  · right; cases r <;> rfl

/-- C11. For every graph `begin ()` and `end ()` are the same cursor (the constructor
resets the `end ()` of the first bucket to its `begin ()`), so stepping from `begin ()`
until the cursor equals `end ()` visits no edge at all. For nodes 1, 2, 3, 4 with the
edges 1 -> 2 (10), 1 -> 3 (20), 4 -> 3 the graph has three edges and the visited sequence
is empty; the cursor reached by three increments is not equal to `end ()` either. -/
theorem traversal_visits_nothing :
    (∀ (g : graph Nat Int) (fuel : Nat), g.begin_ (fuel + 1) = g.end_ (fuel + 1) ∧
      (g.traversal (fuel + 1) = none ∨ g.traversal (fuel + 1) = some [])) ∧
    (∀ p q r fuel : Nat,
      ((((graph.of_list [1, 2, 3, 4] : graph Nat Int).insert_edge p 1 2 (some 10)).2.insert_edge
        q 1 3 (some 20)).2.insert_edge r 4 3 none).2.edge_list.length = 3 ∧
      ((((graph.of_list [1, 2, 3, 4] : graph Nat Int).insert_edge p 1 2 (some 10)).2.insert_edge
        q 1 3 (some 20)).2.insert_edge r 4 3 none).2.traversal (fuel + 1) = some [] ∧
      ∃ first last,
        ((((graph.of_list [1, 2, 3, 4] : graph Nat Int).insert_edge p 1 2 (some 10)).2.insert_edge
          q 1 3 (some 20)).2.insert_edge r 4 3 none).2.begin_ (fuel + 1) = some first ∧
        ((((graph.of_list [1, 2, 3, 4] : graph Nat Int).insert_edge p 1 2 (some 10)).2.insert_edge
          q 1 3 (some 20)).2.insert_edge r 4 3 none).2.end_ (fuel + 1) = some last ∧
        (((first.increment
          ((((graph.of_list [1, 2, 3, 4] : graph Nat Int).insert_edge p 1 2 (some 10)).2.insert_edge
            q 1 3 (some 20)).2.insert_edge r 4 3 none).2).increment
          ((((graph.of_list [1, 2, 3, 4] : graph Nat Int).insert_edge p 1 2 (some 10)).2.insert_edge
            q 1 3 (some 20)).2.insert_edge r 4 3 none).2).increment
          ((((graph.of_list [1, 2, 3, 4] : graph Nat Int).insert_edge p 1 2 (some 10)).2.insert_edge
            q 1 3 (some 20)).2.insert_edge r 4 3 none).2).eq last = false) := by
  constructor
  · intro g fuel
    refine ⟨begin_eq_end g fuel, ?_⟩
    unfold graph.traversal
    rw [begin_eq_end g fuel]
    cases h : g.end_ (fuel + 1) with
    | none => exact Or.inl rfl
    | some last => exact Or.inr (by simp [visit, iterator_eq_self])
  · intro p q r fuel
    rcases three_edges_layout p q r with h | h <;> rw [h] <;>
      exact ⟨rfl, by simp [graph.traversal, graph.begin_, graph.end_, skip_empty,
        construct_of_ne, visit, iterator_eq_self],
        ⟨0, 2, (0, 0)⟩, ⟨0, 2, (0, 0)⟩, rfl, rfl, rfl⟩

/-! ## Equality and copy -/

/-- C13. `operator==` on two reachable graphs can throw, and can return false on graphs
with the same nodes and the same edges. With nodes 1, 2 on both sides, the edge 1 -> 2 on
the left and the edge 2 -> 1 on the right, `other.adjacency_list_.at (1)` throws
`std::out_of_range`. With the left graph built from nodes 1, 2, 3 by `insert_edge (1, 3)`
and `erase_node (3)` and the right graph built from nodes 1, 2, both have the nodes 1, 2
and no edge, yet the left one keeps an empty bucket and the comparison returns false. -/
theorem operator_eq_throws_or_rejects (p q : Nat) (al : Nat → Nat → Nat) :
    (((graph.of_list [1, 2] : graph Nat Int).insert_edge p 1 2 none).2.operator_eq
      ((graph.of_list [1, 2] : graph Nat Int).insert_edge q 2 1 none).2
        = .error .out_of_range) ∧
    ((((graph.of_list [1, 2, 3] : graph Nat Int).insert_edge p 1 3 none).2.erase_node al 3).2.nodes_
        = (graph.of_list [1, 2] : graph Nat Int).nodes_) ∧
    ((((graph.of_list [1, 2, 3] : graph Nat Int).insert_edge p 1 3 none).2.erase_node al 3).2.edge_list
        = (graph.of_list [1, 2] : graph Nat Int).edge_list) ∧
    ((((graph.of_list [1, 2, 3] : graph Nat Int).insert_edge p 1 3 none).2.erase_node
      al 3).2.operator_eq (graph.of_list [1, 2]) = .ok false) := by
  refine ⟨?_, ?_, ?_, ?_⟩
  · cases p <;> cases q <;> rfl
  · cases p <;> rfl
  · cases p <;> rfl
  · cases p <;> rfl

/-- C14. The copy of a graph in which `erase_node` left a node with an empty bucket does
not compare equal to the original. With nodes 1, 2, `insert_edge (1, 2)` and
`erase_node (2)` the original has the node 1 and an empty bucket for it; the copy
constructor makes a bucket only when it copies an edge, so the copy has the same node,
the same (empty) list of edges and no bucket, and `A == B` is false. -/
theorem copy_of_empty_bucket_differs (p : Nat) (al al' : Nat → Nat → Nat) :
    (((graph.of_list [1, 2] : graph Nat Int).insert_edge p 1 2 none).2.erase_node al 2).2
      = graph.mk [1] [(1, [])] ∧
    (graph.mk [1] [(1, [])] : graph Nat Int).copy al' = graph.mk [1] [] ∧
    ((graph.mk [1] [(1, [])] : graph Nat Int).copy al').edge_list
      = (graph.mk [1] [(1, [])] : graph Nat Int).edge_list ∧
    (graph.mk [1] [(1, [])] : graph Nat Int).operator_eq
      ((graph.mk [1] [(1, [])] : graph Nat Int).copy al') = .ok false := by
  refine ⟨?_, rfl, rfl, rfl⟩
  cases p <;> rfl

/-! ## Invariants in reachable states -/

/-- C15. Invariant A fails after `replace_node`: from nodes 1, 2, `insert_edge (2, 1, 10)`
and `replace_node (1, 3)` lead to a graph whose only edge ends at 1, which is not in the
node set any more. -/
theorem invariant_A_broken_by_replace_node (p : Nat) (al : Nat → Nat → Nat) :
    ¬ (((graph.of_list [1, 2] : graph Nat Int).insert_edge p 2 1 (some 10)).2.replace_node
      al 1 3).2.invariant_A := by
  have h : (((graph.of_list [1, 2] : graph Nat Int).insert_edge p 2 1 (some 10)).2.replace_node
      al 1 3).2 = graph.mk [2, 3] [(2, [.weighted_edge 2 1 10])] := by
    cases p <;> rfl
  rw [h]
  intro hA
  have := (hA (2, 1, some 10) (by decide)).2
  revert this
  decide

/-- The graph reached from nodes 1, 2 by `insert_edge (1, 2)`, `replace_node (1, k)`,
`insert_node (1)` and `insert_edge (1, 2)`: the bucket of `k` keeps an edge object that
still names 1 as its source. -/
theorem stale_source_state (k : Nat) (hk : 2 < k) (p q : Nat) (al : Nat → Nat → Nat) :
    ((((((graph.of_list [1, 2] : graph Nat Int).insert_edge p 1 2 none).2.replace_node
      al 1 k).2.insert_node 1).2.insert_edge q 1 2 none).2)
      = graph.mk [1, 2, k] [(1, [.unweighted_edge 1 2]), (k, [.unweighted_edge 1 2])] := by
  have h1 : ((graph.of_list [1, 2] : graph Nat Int).insert_edge p 1 2 none).2
      = graph.mk [1, 2] [(1, [.unweighted_edge 1 2])] := by
    cases p <;> rfl
  have hk1 : ¬ k < 1 := by omega
  have hk1' : ¬ k = 1 := by omega
  have hk1'' : ¬ 1 = k := by omega
  have hk2 : ¬ k < 2 := by omega
  have hk2' : ¬ k = 2 := by omega
  have hk2'' : ¬ 2 = k := by omega
  have h1k : (1 : Nat) < k := by omega
  rw [h1]
  simp [graph.replace_node, graph.is_node, graph.insert_node, graph.insert_edge, rename_loop,
    rename_bucket, renamed_edge, bucket_insert, map_assign, map_index, map_find, map_touch,
    set_insert, set_erase, emplace_nil, edge.get_nodes, edge.get_weight, hk1, hk1', hk1'', hk2,
    hk2', hk2'', h1k]

/-- C16. Invariant B fails in a reachable state. From nodes 1, 2: `insert_edge (1, 2)`,
`replace_node (1, 4)`, `insert_node (1)`, `insert_edge (1, 2)`, `replace_node (4, 5)`. The
first rename leaves under 4 an edge object that still names 1 as its source; the second
rename builds from it a fresh edge 1 -> 2 and inserts it into the bucket of 1, which was
assigned before and already holds 1 -> 2. The bucket of 1 then stores the unweighted edge
1 -> 2 twice, wherever the allocator places the objects. -/
theorem invariant_B_broken_by_replace_node (p q : Nat) (al al' : Nat → Nat → Nat) :
    (((((((graph.of_list [1, 2] : graph Nat Int).insert_edge p 1 2 none).2.replace_node
      al 1 4).2.insert_node 1).2.insert_edge q 1 2 none).2).replace_node al' 4 5)
      = (.ok true, graph.mk [1, 2, 5]
          [(1, [.unweighted_edge 1 2, .unweighted_edge 1 2]), (5, [.unweighted_edge 1 2])]) ∧
    ¬ (((((((graph.of_list [1, 2] : graph Nat Int).insert_edge p 1 2 none).2.replace_node
      al 1 4).2.insert_node 1).2.insert_edge q 1 2 none).2).replace_node al' 4 5).2.invariant_B := by
  rw [stale_source_state 4 (by decide) p q al]
  have h : (graph.mk [1, 2, 4] [(1, [.unweighted_edge 1 2]), (4, [.unweighted_edge 1 2])] :
      graph Nat Int).replace_node al' 4 5 = (.ok true, graph.mk [1, 2, 5]
        [(1, emplace (al' 1 0) (.unweighted_edge 1 2) [.unweighted_edge 1 2]),
          (5, [.unweighted_edge 1 2])]) := rfl
  rw [h, emplace_same]
  refine ⟨rfl, ?_⟩
  intro hB
  have := hB (1, [.unweighted_edge 1 2, .unweighted_edge 1 2]) (by simp)
  revert this
  decide

/-- C17. On the example of the specification (nodes 1, 2, 3 with 1 -> 2 (10) and
3 -> 2 (10)) `merge_replace_node (1, 3)` leaves the single edge 3 -> 2 (10). It does not on
every graph: from nodes 1, 2, the calls `insert_edge (1, 2)`, `replace_node (1, 5)`,
`insert_node (1)`, `insert_edge (1, 2)`, `insert_node (3)`, `insert_edge (3, 2)` reach a
graph with the nodes 1, 2, 3, 5 in which 1 -> 2 and 3 -> 2 are unweighted edges, and
`merge_replace_node (1, 3)` leaves two unweighted edges 3 -> 2 in the bucket of 3. -/
theorem merge_replace_node_keeps_duplicate (p q r : Nat) (al al' : Nat → Nat → Nat) :
    ((((graph.of_list [1, 2, 3] : graph Nat Int).insert_edge p 1 2 (some 10)).2.insert_edge
      q 3 2 (some 10)).2.merge_replace_node al' 1 3).2.edge_list = [(3, 2, some 10)] ∧
    (1, 2, none) ∈ ((((((((graph.of_list [1, 2] : graph Nat Int).insert_edge p 1 2 none).2.replace_node
      al 1 5).2.insert_node 1).2.insert_edge q 1 2 none).2).insert_node 3).2.insert_edge
        r 3 2 none).2.edge_list ∧
    (3, 2, none) ∈ ((((((((graph.of_list [1, 2] : graph Nat Int).insert_edge p 1 2 none).2.replace_node
      al 1 5).2.insert_node 1).2.insert_edge q 1 2 none).2).insert_node 3).2.insert_edge
        r 3 2 none).2.edge_list ∧
    (((((((((graph.of_list [1, 2] : graph Nat Int).insert_edge p 1 2 none).2.replace_node
      al 1 5).2.insert_node 1).2.insert_edge q 1 2 none).2).insert_node 3).2.insert_edge
        r 3 2 none).2.merge_replace_node al' 1 3)
      = (.ok (), graph.mk [2, 3, 5]
          [(3, [.unweighted_edge 3 2, .unweighted_edge 3 2]), (5, [.unweighted_edge 1 2])]) ∧
    (((((((((graph.of_list [1, 2] : graph Nat Int).insert_edge p 1 2 none).2.replace_node
      al 1 5).2.insert_node 1).2.insert_edge q 1 2 none).2).insert_node 3).2.insert_edge
        r 3 2 none).2.merge_replace_node al' 1 3).2.edge_list.count (3, 2, none) = 2 := by
  rw [stale_source_state 5 (by decide) p q al]
  have h0 : ((((graph.of_list [1, 2, 3] : graph Nat Int).insert_edge p 1 2 (some 10)).2.insert_edge
      q 3 2 (some 10)).2.merge_replace_node al' 1 3).2.edge_list = [(3, 2, some 10)] := by
    cases p <;> cases q <;> rfl
  have h1 : (((graph.mk [1, 2, 5] [(1, [.unweighted_edge 1 2]), (5, [.unweighted_edge 1 2])] :
      graph Nat Int).insert_node 3).2.insert_edge r 3 2 none).2
      = graph.mk [1, 2, 3, 5]
        [(1, [.unweighted_edge 1 2]), (3, [.unweighted_edge 3 2]), (5, [.unweighted_edge 1 2])] := by
    cases r <;> rfl
  rw [h1]
  have h2 : (graph.mk [1, 2, 3, 5]
        [(1, [.unweighted_edge 1 2]), (3, [.unweighted_edge 3 2]), (5, [.unweighted_edge 1 2])] :
      graph Nat Int).merge_replace_node al' 1 3 = (.ok (), graph.mk [2, 3, 5]
        [(3, emplace (al' 2 0) (.unweighted_edge 3 2) [.unweighted_edge 3 2]),
          (5, [.unweighted_edge 1 2])]) := rfl
  rw [h2, emplace_same]
  exact ⟨h0, by decide, by decide, rfl, by decide⟩

/-! ## The two failure paths of `replace_node` -/

section replace_node_theorems
variable [LinearOrder N]

/-- C18. `replace_node (old, new)` throws the `std::runtime_error` of its guard exactly
when `old` is not a node, and then leaves the object as it was; when `old` is a node and
`new` is a node too (also when `new = old`) it returns false and leaves the object as it
was. -/
theorem replace_node_failure_paths (al : Nat → Nat → Nat) (g : graph N E) (old_data new_data : N) :
    ((g.replace_node al old_data new_data).1 = .error (.runtime_error replace_node_what) ↔
      old_data ∉ g.nodes_) ∧
    (old_data ∉ g.nodes_ →
      g.replace_node al old_data new_data = (.error (.runtime_error replace_node_what), g)) ∧
    (old_data ∈ g.nodes_ → new_data ∈ g.nodes_ →
      g.replace_node al old_data new_data = (.ok false, g)) ∧
    (old_data ∈ g.nodes_ → g.replace_node al old_data old_data = (.ok false, g)) := by
  have hthrow : old_data ∉ g.nodes_ →
      g.replace_node al old_data new_data = (.error (.runtime_error replace_node_what), g) := by
    intro h
    simp [graph.replace_node, graph.is_node, h]
  have hfalse : ∀ n : N, old_data ∈ g.nodes_ → n ∈ g.nodes_ →
      g.replace_node al old_data n = (.ok false, g) := by
    intro n h1 h2
    simp [graph.replace_node, graph.is_node, h1, h2]
  refine ⟨⟨?_, fun h => by rw [hthrow h]⟩, hthrow, hfalse new_data, fun h => hfalse old_data h h⟩
  intro h hold
  by_cases hnew : new_data ∈ g.nodes_
  · rw [hfalse new_data hold hnew] at h
    exact absurd h (by simp)
  · simp [graph.replace_node, graph.is_node, hold, hnew] at h

/-- C18, at a concrete graph: nodes 1, 2, 3 with the edge 1 -> 2 (10); 5 is not a node,
1 and 2 are. -/
theorem replace_node_failure_paths_witness :
    (((graph.mk [1, 2, 3] [(1, [.weighted_edge 1 2 10])] : graph Nat Int).replace_node
        (fun _ _ => 0) 5 6).1 = .error (.runtime_error replace_node_what) ↔ 5 ∉ [1, 2, 3]) ∧
    ((graph.mk [1, 2, 3] [(1, [.weighted_edge 1 2 10])] : graph Nat Int).replace_node
        (fun _ _ => 0) 5 6
      = (.error (.runtime_error replace_node_what),
          graph.mk [1, 2, 3] [(1, [.weighted_edge 1 2 10])])) ∧
    ((graph.mk [1, 2, 3] [(1, [.weighted_edge 1 2 10])] : graph Nat Int).replace_node
        (fun _ _ => 0) 1 2
      = (.ok false, graph.mk [1, 2, 3] [(1, [.weighted_edge 1 2 10])])) ∧
    ((graph.mk [1, 2, 3] [(1, [.weighted_edge 1 2 10])] : graph Nat Int).replace_node
        (fun _ _ => 0) 1 1
      = (.ok false, graph.mk [1, 2, 3] [(1, [.weighted_edge 1 2 10])])) :=
  ⟨(replace_node_failure_paths (fun _ _ => 0)
      (graph.mk [1, 2, 3] [(1, [.weighted_edge 1 2 10])] : graph Nat Int) 5 6).1,
    (replace_node_failure_paths (fun _ _ => 0)
      (graph.mk [1, 2, 3] [(1, [.weighted_edge 1 2 10])] : graph Nat Int) 5 6).2.1 (by decide),
    (replace_node_failure_paths (fun _ _ => 0)
      (graph.mk [1, 2, 3] [(1, [.weighted_edge 1 2 10])] : graph Nat Int) 1 2).2.2.1
        (by decide) (by decide),
    (replace_node_failure_paths (fun _ _ => 0)
      (graph.mk [1, 2, 3] [(1, [.weighted_edge 1 2 10])] : graph Nat Int) 1 2).2.2.2 (by decide)⟩

end replace_node_theorems

/-! ## Erasing through cursors -/

/-- C19. `erase_edge (iterator)` on the only edge of a graph does not return. With nodes
1, 2 and the edge 1 -> 2 (10), `find (1, 2, 10)` is the cursor at that edge; the call
removes the edge, the rebuild drops the emptied bucket, and the test `i == end ()` then
calls `end ()` on a graph without edges, which calls itself without end: no fuel makes
the call return a cursor. -/
theorem erase_edge_at_last_edge_never_returns (p : Nat) (al : Nat → Nat → Nat) :
    ((graph.of_list [1, 2] : graph Nat Int).insert_edge p 1 2 (some 10)).2.find 1 1 2 (some 10)
      = some ⟨0, 1, (0, 0)⟩ ∧
    iterator.deref ((graph.of_list [1, 2] : graph Nat Int).insert_edge p 1 2 (some 10)).2
      ⟨0, 1, (0, 0)⟩ = some (1, 2, some 10) ∧
    ∀ fuel : Nat,
      ((graph.of_list [1, 2] : graph Nat Int).insert_edge p 1 2 (some 10)).2.erase_edge_at
        fuel al ⟨0, 1, (0, 0)⟩ = (none, graph.mk [1, 2] []) := by
  have h1 : ((graph.of_list [1, 2] : graph Nat Int).insert_edge p 1 2 (some 10)).2
      = graph.mk [1, 2] [(1, [.weighted_edge 1 2 10])] := by
    cases p <;> rfl
  rw [h1]
  refine ⟨rfl, rfl, ?_⟩
  intro fuel
  have hend : (graph.mk [1, 2] [] : graph Nat Int).end_ fuel = none :=
    end_without_edges (graph.mk [1, 2] []) rfl fuel
  have herase : (graph.mk [1, 2] [(1, [.weighted_edge 1 2 10])] : graph Nat Int).erase_edge
      al 1 2 (some 10) = (.ok true, graph.mk [1, 2] []) := rfl
  have hderef : iterator.deref (graph.mk [1, 2] [(1, [.weighted_edge 1 2 10])] : graph Nat Int)
      ⟨0, 1, (0, 0)⟩ = some (1, 2, some 10) := rfl
  simp only [graph.erase_edge_at, hderef, herase, hend]

/-- The graph of nodes 1, 2, 3, 4 after the five insertions of the test
"Erase Edge - Between Iterators": the bucket of 1 holds its three edges in one of the six
orders the allocator can produce. -/
theorem five_edges_layout (p₁ p₂ p₃ p₄ p₅ : Nat) :
    ∃ bucket : List (edge Nat Int),
      (((((((graph.of_list [1, 2, 3, 4] : graph Nat Int).insert_edge p₁ 1 2 (some 10)).2.insert_edge
      p₂ 1 3 (some 20)).2.insert_edge p₃ 1 4 (some 30)).2.insert_edge p₄ 2 3 (some 40)).2.insert_edge
      p₅ 3 4 (some 50)).2) = graph.mk [1, 2, 3, 4]
        [(1, bucket), (2, [.weighted_edge 2 3 40]), (3, [.weighted_edge 3 4 50])] ∧
      (bucket = [.weighted_edge 1 4 30, .weighted_edge 1 3 20, .weighted_edge 1 2 10] ∨
       bucket = [.weighted_edge 1 3 20, .weighted_edge 1 4 30, .weighted_edge 1 2 10] ∨
       bucket = [.weighted_edge 1 3 20, .weighted_edge 1 2 10, .weighted_edge 1 4 30] ∨
       bucket = [.weighted_edge 1 4 30, .weighted_edge 1 2 10, .weighted_edge 1 3 20] ∨
       bucket = [.weighted_edge 1 2 10, .weighted_edge 1 4 30, .weighted_edge 1 3 20] ∨
       bucket = [.weighted_edge 1 2 10, .weighted_edge 1 3 20, .weighted_edge 1 4 30]) := by
  have h1 : ((graph.of_list [1, 2, 3, 4] : graph Nat Int).insert_edge p₁ 1 2 (some 10)).2
      = graph.mk [1, 2, 3, 4] [(1, [.weighted_edge 1 2 10])] := by
    cases p₁ <;> rfl
  have h2 : ((graph.mk [1, 2, 3, 4] [(1, [.weighted_edge 1 2 10])] : graph Nat Int).insert_edge
      p₂ 1 3 (some 20)).2 = graph.mk [1, 2, 3, 4]
        [(1, emplace p₂ (.weighted_edge 1 3 20) [.weighted_edge 1 2 10])] := rfl
  have h3 : ∀ a b : edge Nat Int,
      (a = .weighted_edge 1 3 20 ∧ b = .weighted_edge 1 2 10) ∨
        (a = .weighted_edge 1 2 10 ∧ b = .weighted_edge 1 3 20) →
      ((graph.mk [1, 2, 3, 4] [(1, [a, b])] : graph Nat Int).insert_edge p₃ 1 4 (some 30)).2
        = graph.mk [1, 2, 3, 4] [(1, emplace p₃ (.weighted_edge 1 4 30) [a, b])] := by
    rintro a b (⟨rfl, rfl⟩ | ⟨rfl, rfl⟩) <;> rfl
  have h45 : ∀ a b c : edge Nat Int,
      (((graph.mk [1, 2, 3, 4] [(1, [a, b, c])] : graph Nat Int).insert_edge
        p₄ 2 3 (some 40)).2.insert_edge p₅ 3 4 (some 50)).2
        = graph.mk [1, 2, 3, 4]
          [(1, [a, b, c]), (2, [.weighted_edge 2 3 40]), (3, [.weighted_edge 3 4 50])] := by
    intro a b c
    cases p₄ <;> cases p₅ <;> rfl
  rw [h1, h2]
  rcases emplace_singleton p₂ (edge.weighted_edge 1 3 (20 : Int)) (edge.weighted_edge (1 : Nat) 2 10)
    with h | h <;> rw [h]
  · rw [h3 _ _ (Or.inl ⟨rfl, rfl⟩)]
    rcases emplace_pair p₃ (edge.weighted_edge 1 4 (30 : Int)) (edge.weighted_edge (1 : Nat) 3 20)
      (edge.weighted_edge 1 2 10) with h' | h' | h' <;> rw [h', h45] <;>
      exact ⟨_, rfl, by simp⟩
  · rw [h3 _ _ (Or.inr ⟨rfl, rfl⟩)]
    rcases emplace_pair p₃ (edge.weighted_edge 1 4 (30 : Int)) (edge.weighted_edge (1 : Nat) 2 10)
      (edge.weighted_edge 1 3 20) with h' | h' | h' <;> rw [h', h45] <;>
      exact ⟨_, rfl, by simp⟩

/-- C20. `erase_edge (i, s)` on the graph of the test "Erase Edge - Between Iterators"
(nodes 1, 2, 3, 4 with 1 -> 2 (10), 1 -> 3 (20), 1 -> 4 (30), 2 -> 3 (40), 3 -> 4 (50)):
`find (1, 2, 10)` and `find (1, 4, 30)` are the same cursor, so `i != s` is false at once,
no edge is erased and the graph is returned as it was, with its five edges. This holds
wherever the allocator places the objects. -/
theorem erase_edge_range_erases_nothing (p₁ p₂ p₃ p₄ p₅ fuel turns : Nat)
    (al : Nat → Nat → Nat → Nat) :
    (((((((graph.of_list [1, 2, 3, 4] : graph Nat Int).insert_edge p₁ 1 2 (some 10)).2.insert_edge
      p₂ 1 3 (some 20)).2.insert_edge p₃ 1 4 (some 30)).2.insert_edge p₄ 2 3 (some 40)).2.insert_edge
      p₅ 3 4 (some 50)).2).find (fuel + 1) 1 2 (some 10) = some ⟨0, 3, (0, 0)⟩ ∧
    (((((((graph.of_list [1, 2, 3, 4] : graph Nat Int).insert_edge p₁ 1 2 (some 10)).2.insert_edge
      p₂ 1 3 (some 20)).2.insert_edge p₃ 1 4 (some 30)).2.insert_edge p₄ 2 3 (some 40)).2.insert_edge
      p₅ 3 4 (some 50)).2).find (fuel + 1) 1 4 (some 30) = some ⟨0, 3, (0, 0)⟩ ∧
    graph.erase_edge_range (fuel + 1) al ⟨0, 3, (0, 0)⟩ (turns + 1) 0
      (((((((graph.of_list [1, 2, 3, 4] : graph Nat Int).insert_edge p₁ 1 2 (some 10)).2.insert_edge
      p₂ 1 3 (some 20)).2.insert_edge p₃ 1 4 (some 30)).2.insert_edge p₄ 2 3 (some 40)).2.insert_edge
      p₅ 3 4 (some 50)).2) ⟨0, 3, (0, 0)⟩
      = (some (.ok ⟨0, 3, (0, 0)⟩),
        (((((((graph.of_list [1, 2, 3, 4] : graph Nat Int).insert_edge p₁ 1 2 (some 10)).2.insert_edge
      p₂ 1 3 (some 20)).2.insert_edge p₃ 1 4 (some 30)).2.insert_edge p₄ 2 3 (some 40)).2.insert_edge
      p₅ 3 4 (some 50)).2)) ∧
    (1, 2, some 10) ∈ (((((((graph.of_list [1, 2, 3, 4] : graph Nat Int).insert_edge p₁ 1 2 (some 10)).2.insert_edge
      p₂ 1 3 (some 20)).2.insert_edge p₃ 1 4 (some 30)).2.insert_edge p₄ 2 3 (some 40)).2.insert_edge
      p₅ 3 4 (some 50)).2).edge_list ∧
    (1, 3, some 20) ∈ (((((((graph.of_list [1, 2, 3, 4] : graph Nat Int).insert_edge p₁ 1 2 (some 10)).2.insert_edge
      p₂ 1 3 (some 20)).2.insert_edge p₃ 1 4 (some 30)).2.insert_edge p₄ 2 3 (some 40)).2.insert_edge
      p₅ 3 4 (some 50)).2).edge_list ∧
    (((((((graph.of_list [1, 2, 3, 4] : graph Nat Int).insert_edge p₁ 1 2 (some 10)).2.insert_edge
      p₂ 1 3 (some 20)).2.insert_edge p₃ 1 4 (some 30)).2.insert_edge p₄ 2 3 (some 40)).2.insert_edge
      p₅ 3 4 (some 50)).2).edge_list.length = 5 := by
  obtain ⟨bucket, hg, hb⟩ := five_edges_layout p₁ p₂ p₃ p₄ p₅
  rw [hg]
  rcases hb with h | h | h | h | h | h <;> subst h <;>
    exact ⟨rfl, rfl, rfl, by decide, by decide, rfl⟩

/-! ## Rendering -/

/-- Inserting `a` into a list sorted by `s`, with a comparator `r` that agrees with `s` on
`a` against the elements of the list, keeps the list sorted by `s`. -/
theorem orderedInsert_pairwise {α : Type} (r s : α → α → Prop) [DecidableRel r] (a : α)
    (l : List α) (htrans : ∀ x y z, s x y → s y z → s x z)
    (hrs : ∀ x ∈ l, (r a x ↔ s a x)) (htri : ∀ x ∈ l, s a x ∨ s x a)
    (hl : l.Pairwise s) : (l.orderedInsert r a).Pairwise s := by
  induction l with
  | nil => simp
  | cons b l ih =>
    obtain ⟨hb, hl'⟩ := List.pairwise_cons.1 hl
    simp only [List.orderedInsert]
    split_ifs with h
    · have hab : s a b := (hrs b (List.mem_cons_self _ _)).1 h
      refine List.pairwise_cons.2 ⟨?_, hl⟩
      intro x hx
      rcases List.mem_cons.1 hx with rfl | hx
      · exact hab
      · exact htrans _ _ _ hab (hb x hx)
    · have hba : s b a := by
        rcases htri b (List.mem_cons_self _ _) with h' | h'
        · exact absurd ((hrs b (List.mem_cons_self _ _)).2 h') h
        · exact h'
      refine List.pairwise_cons.2 ⟨?_, ih (fun x hx => hrs x (List.mem_cons_of_mem _ hx))
        (fun x hx => htri x (List.mem_cons_of_mem _ hx)) hl'⟩
      intro x hx
      rcases (List.mem_orderedInsert r).1 hx with rfl | hx
      · exact hba
      · exact hb x hx

/-- Insertion sort with a comparator `r` that agrees, on distinct elements of the list,
with a transitive and trichotomous relation `s` sorts a duplicate-free list by `s`. -/
theorem insertionSort_pairwise {α : Type} (r s : α → α → Prop) [DecidableRel r]
    (l : List α) (htrans : ∀ x y z, s x y → s y z → s x z)
    (hrs : ∀ x ∈ l, ∀ y ∈ l, x ≠ y → (r x y ↔ s x y))
    (htri : ∀ x ∈ l, ∀ y ∈ l, x ≠ y → s x y ∨ s y x)
    (hnd : l.Nodup) : (l.insertionSort r).Pairwise s := by
  induction l with
  | nil => simp
  | cons a l ih =>
    obtain ⟨ha, hl⟩ := List.nodup_cons.1 hnd
    simp only [List.insertionSort]
    have hne : ∀ x ∈ l.insertionSort r, a ≠ x := by
      intro x hx hax
      exact ha (hax ▸ (List.mem_insertionSort r).1 hx)
    refine orderedInsert_pairwise r s a _ htrans ?_ ?_ ?_
    · intro x hx
      exact hrs a (List.mem_cons_self _ _) x
        (List.mem_cons_of_mem _ ((List.mem_insertionSort r).1 hx)) (hne x hx)
    · intro x hx
      exact htri a (List.mem_cons_self _ _) x
        (List.mem_cons_of_mem _ ((List.mem_insertionSort r).1 hx)) (hne x hx)
    · exact ih (fun x hx y hy => hrs x (List.mem_cons_of_mem _ hx) y (List.mem_cons_of_mem _ hy))
        (fun x hx y hy => htri x (List.mem_cons_of_mem _ hx) y (List.mem_cons_of_mem _ hy)) hl

/-- The line the code writes for a tuple is the line of the specification. -/
theorem edge_line_eq_spec (showN : N → String) (showE : E → String) (e : N × N × Option E) :
    edge_line showN showE e = line_spec showN showE e.1 e.2.1 e.2.2 := by
  obtain ⟨a, b, w⟩ := e
  have h1 : " | " ++ "U\n" = " | U\n" := by decide
  have h2 : ∀ x : String, " | " ++ ("W | " ++ x) = " | W | " ++ x := by
    intro x
    rw [← String.append_assoc]
    congr 1
  cases w with
  | none => simp only [edge_line, line_spec, String.append_assoc, h1]
  | some v => simp only [edge_line, line_spec, String.append_assoc, h2]

section rendering_lemmas
variable [LinearOrder N] [LinearOrder E]

theorem optional_lt_trans (x y z : Option E) (h1 : optional_lt x y) (h2 : optional_lt y z) :
    optional_lt x z := by
  cases x <;> cases y <;> cases z <;> simp only [optional_lt] at h1 h2 ⊢
  exact lt_trans h1 h2

theorem optional_lt_trichotomy (x y : Option E) (h : x ≠ y) :
    optional_lt x y ∨ optional_lt y x := by
  cases x <;> cases y <;> simp only [optional_lt] at h ⊢
  · exact absurd rfl h
  · exact Or.inl trivial
  · exact Or.inr trivial
  · rename_i a b
    rcases lt_trichotomy a b with h' | h' | h'
    · exact Or.inl h'
    · exact absurd (congrArg some h') h
    · exact Or.inr h'

theorem optional_lt_asymm (x y : Option E) (h1 : optional_lt x y) : ¬ optional_lt y x := by
  cases x <;> cases y <;> simp only [optional_lt] at h1 ⊢
  · exact fun h => h
  · exact not_lt.2 (le_of_lt h1)

theorem out_lt_trans (x y z : N × Option E) (h1 : out_lt x y) (h2 : out_lt y z) : out_lt x z := by
  rcases h1 with h1 | ⟨e1, h1⟩ <;> rcases h2 with h2 | ⟨e2, h2⟩
  · exact Or.inl (lt_trans h1 h2)
  · exact Or.inl (e2 ▸ h1)
  · exact Or.inl (e1 ▸ h2)
  · exact Or.inr ⟨e1.trans e2, optional_lt_trans _ _ _ h1 h2⟩

theorem out_lt_trichotomy (x y : N × Option E) (h : x ≠ y) : out_lt x y ∨ out_lt y x := by
  rcases lt_trichotomy x.1 y.1 with h' | h' | h'
  · exact Or.inl (Or.inl h')
  · have h2 : x.2 ≠ y.2 := fun e => h (Prod.ext h' e)
    rcases optional_lt_trichotomy x.2 y.2 h2 with h3 | h3
    · exact Or.inl (Or.inr ⟨h', h3⟩)
    · exact Or.inr (Or.inr ⟨h'.symm, h3⟩)
  · exact Or.inr (Or.inl h')

theorem out_lt_asymm (x y : N × Option E) (h1 : out_lt x y) : ¬ out_lt y x := by
  rintro (h2 | ⟨e2, h2⟩)
  · rcases h1 with h1 | ⟨e1, _⟩
    · exact lt_asymm h1 h2
    · exact absurd (e1 ▸ h2) (lt_irrefl _)
  · rcases h1 with h1 | ⟨_, h1⟩
    · exact absurd (e2 ▸ h1) (lt_irrefl _)
    · exact optional_lt_asymm _ _ h1 h2

theorem tuple_lt_trans (x y z : N × N × Option E) (h1 : tuple_lt x y) (h2 : tuple_lt y z) :
    tuple_lt x z := by
  rcases h1 with h1 | ⟨e1, h1⟩ <;> rcases h2 with h2 | ⟨e2, h2⟩
  · exact Or.inl (lt_trans h1 h2)
  · exact Or.inl (e2 ▸ h1)
  · exact Or.inl (e1 ▸ h2)
  · exact Or.inr ⟨e1.trans e2, out_lt_trans _ _ _ h1 h2⟩

theorem tuple_lt_trichotomy (x y : N × N × Option E) (h : x ≠ y) : tuple_lt x y ∨ tuple_lt y x := by
  rcases lt_trichotomy x.1 y.1 with h' | h' | h'
  · exact Or.inl (Or.inl h')
  · have h2 : x.2 ≠ y.2 := fun e => h (Prod.ext h' e)
    rcases out_lt_trichotomy x.2 y.2 h2 with h3 | h3
    · exact Or.inl (Or.inr ⟨h', h3⟩)
    · exact Or.inr (Or.inr ⟨h'.symm, h3⟩)
  · exact Or.inr (Or.inl h')

/-- On two different tuples the comparator of `operator<<` is the strict lexicographic
order. -/
theorem extractor_less_iff (a b : N × N × Option E) (h : a ≠ b) :
    extractor_less a b = true ↔ tuple_lt a b := by
  obtain ⟨a1, a2, a3⟩ := a
  obtain ⟨b1, b2, b3⟩ := b
  simp only [extractor_less, tuple_lt, out_lt]
  by_cases h1 : a1 = b1
  · subst h1
    by_cases h2 : a2 = b2
    · subst h2
      have h3 : a3 ≠ b3 := fun e => h (by rw [e])
      cases a3 <;> cases b3 <;> simp [optional_lt] at h3 ⊢
    · simp [h2]
  · simp [h1]

/-- On two different pairs the order of the specification is its strict version. -/
theorem out_le_iff (a b : N × Option E) (h : a ≠ b) : out_le a b ↔ out_lt a b := by
  obtain ⟨a1, a2⟩ := a
  obtain ⟨b1, b2⟩ := b
  simp only [out_le, out_lt]
  by_cases h1 : a1 = b1
  · subst h1
    have h3 : a2 ≠ b2 := fun e => h (by rw [e])
    cases a2 <;> cases b2 <;> simp [optional_lt] at h3 ⊢
    exact ⟨fun hle => lt_of_le_of_ne hle h3, le_of_lt⟩
  · simp [h1]

/-- The tuples of one node in the sorted vector of `operator<<`, without their first
component, are the edges leaving the node in the order of the specification. -/
theorem sorted_tuples_of_node (g : graph N E) (hB : g.edge_list.Nodup) (node : N) :
    ((g.edge_list.insertionSort (fun a b => extractor_less a b = true)).filter
      (fun e => decide (e.1 = node))).map (fun e => e.2) = g.out_edges_sorted node ∧
    (g.out_edges_sorted node).Pairwise out_lt := by
  have hfst : ∀ (l : List (N × N × Option E)), ∀ x ∈ l.filter (fun e => decide (e.1 = node)),
      x.1 = node := by
    intro l x hx
    simpa using (List.mem_filter.1 hx).2
  -- the vector of the code
  have hsorted : (g.edge_list.insertionSort (fun a b => extractor_less a b = true)).Pairwise
      tuple_lt :=
    insertionSort_pairwise _ tuple_lt g.edge_list tuple_lt_trans
      (fun x _ y _ hxy => extractor_less_iff x y hxy)
      (fun x _ y _ hxy => tuple_lt_trichotomy x y hxy) hB
  have hA : (((g.edge_list.insertionSort (fun a b => extractor_less a b = true)).filter
      (fun e => decide (e.1 = node))).map (fun e => e.2)).Pairwise out_lt := by
    rw [List.pairwise_map]
    refine List.Pairwise.imp_of_mem ?_ (hsorted.filter _)
    intro a b ha hb hab
    rcases hab with h | ⟨_, h⟩
    · rw [hfst _ a ha, hfst _ b hb] at h
      exact absurd h (lt_irrefl _)
    · exact h
  have hAperm : (((g.edge_list.insertionSort (fun a b => extractor_less a b = true)).filter
      (fun e => decide (e.1 = node))).map (fun e => e.2)).Perm
      ((g.edge_list.filter (fun e => decide (e.1 = node))).map (fun e => e.2)) :=
    ((List.perm_insertionSort _ _).filter _).map _
  -- the list of the specification
  have hnd : ((g.edge_list.filter (fun e => decide (e.1 = node))).map (fun e => e.2)).Nodup := by
    refine List.Nodup.map_on ?_ (hB.filter _)
    intro x hx y hy hxy
    exact Prod.ext ((hfst _ x hx).trans (hfst _ y hy).symm) hxy
  have hS : (g.out_edges_sorted node).Pairwise out_lt :=
    insertionSort_pairwise out_le out_lt _ out_lt_trans
      (fun x _ y _ hxy => out_le_iff x y hxy)
      (fun x _ y _ hxy => out_lt_trichotomy x y hxy) hnd
  have hSperm : (g.out_edges_sorted node).Perm
      ((g.edge_list.filter (fun e => decide (e.1 = node))).map (fun e => e.2)) :=
    List.perm_insertionSort _ _
  haveI : IsAntisymm (N × Option E) out_lt :=
    ⟨fun a b h1 h2 => absurd h2 (out_lt_asymm a b h1)⟩
  exact ⟨List.eq_of_perm_of_sorted (hAperm.trans hSperm.symm) hA hS, hS⟩

end rendering_lemmas

section rendering_theorems
variable [LinearOrder N] [LinearOrder E]

/-- C12. For a graph in key order without duplicate edges (Invariant B), the text that
`operator<<` writes is the rendering of the specification: over the nodes in ascending
order, the header, one line per edge leaving the node with ascending destination, the
unweighted edge before the weighted ones and ascending weight, and the footer. The
empty graph renders as the empty string and a node without outgoing edges contributes
its header followed at once by the footer. Invariant A is not needed. -/
theorem rendering_refines_spec (showN : N → String) (showE : E → String) (g : graph N E)
    (hwf : g.WF) (hB : g.edge_list.Nodup) :
    g.operator_shl showN showE = g.rendering_spec showN showE ∧
    g.nodes_.insertionSort (· ≤ ·) = g.nodes_ ∧
    (∀ node, (g.out_edges_sorted node).Pairwise out_lt ∧
      (g.out_edges_sorted node).Perm
        ((g.edge_list.filter (fun e => decide (e.1 = node))).map (fun e => e.2))) ∧
    (g.nodes_ = [] → g.operator_shl showN showE = "") ∧
    (∀ node, (∀ t ∈ g.edge_list, t.1 ≠ node) →
      showN node ++ " (\n" ++
        String.join ((g.out_edges_sorted node).map
          (fun de => line_spec showN showE node de.1 de.2)) ++ ")\n"
        = showN node ++ " (\n" ++ "" ++ ")\n") := by
  have hnodes : g.nodes_.insertionSort (· ≤ ·) = g.nodes_ :=
    List.Sorted.insertionSort_eq (hwf.1.imp le_of_lt)
  refine ⟨?_, hnodes, fun node => ⟨(sorted_tuples_of_node g hB node).2,
    List.perm_insertionSort _ _⟩, ?_, ?_⟩
  · unfold graph.operator_shl graph.rendering_spec
    rw [hnodes]
    by_cases hempty : g.nodes_ = []
    · simp [graph.empty, hempty, String.join]
    · have he : g.empty = false := by
        cases hn : g.nodes_ with
        | nil => exact absurd hn hempty
        | cons a l => simp [graph.empty, hn]
      have hlines : ∀ node : N,
          ((g.edge_list.insertionSort (fun a b => extractor_less a b = true)).filter
            (fun e => decide (e.1 = node))).map (edge_line showN showE) =
          (g.out_edges_sorted node).map (fun de => line_spec showN showE node de.1 de.2) := by
        intro node
        rw [← (sorted_tuples_of_node g hB node).1, List.map_map]
        refine List.map_congr_left ?_
        intro e he
        have h1 : e.1 = node := by simpa using (List.mem_filter.1 he).2
        simp only [Function.comp, ← h1]
        exact edge_line_eq_spec showN showE e
      simp only [he, Bool.false_eq_true, if_false, hlines]
  · intro hempty
    simp [graph.operator_shl, graph.empty, hempty]
  · intro node hnone
    have : g.out_edges_sorted node = [] := by
      have hf : g.edge_list.filter (fun e => decide (e.1 = node)) = [] := by
        rw [List.filter_eq_nil_iff]
        intro t ht
        simpa using hnone t ht
      simp [graph.out_edges_sorted, hf]
    rw [this]
    rfl

/-- C12, at the graph of the example of the specification (nodes 1, 2, 3, 4 with
1 -> 2 (10), 1 -> 3 (20), 4 -> 3), stored with the bucket of 1 in descending destination
order: the text is that of the specification. -/
theorem rendering_refines_spec_witness :
    ((graph.mk [1, 2, 3, 4]
      [(1, [.weighted_edge 1 3 20, .weighted_edge 1 2 10]), (4, [.unweighted_edge 4 3])] :
      graph Nat Int).operator_shl (fun n => toString n) (fun w => toString w)
      = (graph.mk [1, 2, 3, 4]
      [(1, [.weighted_edge 1 3 20, .weighted_edge 1 2 10]), (4, [.unweighted_edge 4 3])] :
      graph Nat Int).rendering_spec (fun n => toString n) (fun w => toString w) ∧
    (graph.mk [1, 2, 3, 4]
      [(1, [.weighted_edge 1 3 20, .weighted_edge 1 2 10]), (4, [.unweighted_edge 4 3])] :
      graph Nat Int).nodes_.insertionSort (· ≤ ·) = (graph.mk [1, 2, 3, 4]
      [(1, [.weighted_edge 1 3 20, .weighted_edge 1 2 10]), (4, [.unweighted_edge 4 3])] :
      graph Nat Int).nodes_ ∧
    (∀ node, ((graph.mk [1, 2, 3, 4]
      [(1, [.weighted_edge 1 3 20, .weighted_edge 1 2 10]), (4, [.unweighted_edge 4 3])] :
      graph Nat Int).out_edges_sorted node).Pairwise out_lt ∧
      ((graph.mk [1, 2, 3, 4]
      [(1, [.weighted_edge 1 3 20, .weighted_edge 1 2 10]), (4, [.unweighted_edge 4 3])] :
      graph Nat Int).out_edges_sorted node).Perm
        (((graph.mk [1, 2, 3, 4]
      [(1, [.weighted_edge 1 3 20, .weighted_edge 1 2 10]), (4, [.unweighted_edge 4 3])] :
      graph Nat Int).edge_list.filter (fun e => decide (e.1 = node))).map (fun e => e.2))) ∧
    ((graph.mk [1, 2, 3, 4]
      [(1, [.weighted_edge 1 3 20, .weighted_edge 1 2 10]), (4, [.unweighted_edge 4 3])] :
      graph Nat Int).nodes_ = [] → (graph.mk [1, 2, 3, 4]
      [(1, [.weighted_edge 1 3 20, .weighted_edge 1 2 10]), (4, [.unweighted_edge 4 3])] :
      graph Nat Int).operator_shl (fun n => toString n) (fun w => toString w) = "") ∧
    (∀ node, (∀ t ∈ (graph.mk [1, 2, 3, 4]
      [(1, [.weighted_edge 1 3 20, .weighted_edge 1 2 10]), (4, [.unweighted_edge 4 3])] :
      graph Nat Int).edge_list, t.1 ≠ node) →
      (fun n : Nat => toString n) node ++ " (\n" ++
        String.join (((graph.mk [1, 2, 3, 4]
      [(1, [.weighted_edge 1 3 20, .weighted_edge 1 2 10]), (4, [.unweighted_edge 4 3])] :
      graph Nat Int).out_edges_sorted node).map
          (fun de => line_spec (fun n : Nat => toString n) (fun w : Int => toString w)
            node de.1 de.2)) ++ ")\n"
        = (fun n : Nat => toString n) node ++ " (\n" ++ "" ++ ")\n")) ∧
    (graph.mk [1, 2, 3, 4]
      [(1, [.weighted_edge 1 3 20, .weighted_edge 1 2 10]), (4, [.unweighted_edge 4 3])] :
      graph Nat Int).operator_shl (fun n => toString n) (fun w => toString w)
      = "1 (\n  1 -> 2 | W | 10\n  1 -> 3 | W | 20\n)\n2 (\n)\n3 (\n)\n4 (\n  4 -> 3 | U\n)\n" :=
  ⟨rendering_refines_spec (fun n => toString n) (fun w => toString w) (graph.mk [1, 2, 3, 4]
      [(1, [.weighted_edge 1 3 20, .weighted_edge 1 2 10]), (4, [.unweighted_edge 4 3])] :
      graph Nat Int)
    ⟨by decide, by decide⟩ (by decide), by decide⟩

end rendering_theorems

/-! ## The node set -/

section node_set_theorems
variable [LinearOrder N]

theorem mem_set_insert (v x : N) (l : List N) : x ∈ set_insert v l ↔ x = v ∨ x ∈ l := by
  induction l with
  | nil => simp [set_insert]
  | cons a l ih =>
    simp only [set_insert]
    split_ifs with h1 h2
    · simp
    · subst h2; simp
    · simp only [List.mem_cons, ih]
      tauto

theorem set_insert_sorted (v : N) (l : List N) (h : l.Pairwise (· < ·)) :
    (set_insert v l).Pairwise (· < ·) := by
  induction l with
  | nil => simp [set_insert]
  | cons a l ih =>
    obtain ⟨ha, hl⟩ := List.pairwise_cons.1 h
    simp only [set_insert]
    split_ifs with h1 h2
    · refine List.pairwise_cons.2 ⟨?_, h⟩
      intro x hx
      rcases List.mem_cons.1 hx with rfl | hx
      · exact h1
      · exact lt_trans h1 (ha x hx)
    · exact h
    · refine List.pairwise_cons.2 ⟨?_, ih hl⟩
      intro x hx
      rcases (mem_set_insert v x l).1 hx with rfl | hx
      · exact lt_of_le_of_ne (not_lt.1 h1) (fun e => h2 e.symm)
      · exact ha x hx

theorem set_insert_of_mem (v : N) (l : List N) (h : l.Pairwise (· < ·)) (hv : v ∈ l) :
    set_insert v l = l := by
  induction l with
  | nil => simp at hv
  | cons a l ih =>
    obtain ⟨ha, hl⟩ := List.pairwise_cons.1 h
    simp only [set_insert]
    rcases List.mem_cons.1 hv with rfl | hv'
    · simp
    · have hlt : a < v := ha v hv'
      have h1 : ¬ v < a := not_lt.2 (le_of_lt hlt)
      have h2 : ¬ v = a := ne_of_gt hlt
      simp only [h1, h2, if_false, ih hl hv']

/-- C22. In a graph whose node set is in key order, `nodes ()` is strictly ascending and
free of duplicates, a value occurs in it exactly when `is_node` holds for it, and
`empty ()` is true exactly when `nodes ()` is the empty list. -/
theorem nodes_spec (g : graph N E) (hwf : g.WF) :
    g.nodes.Pairwise (· < ·) ∧ g.nodes.Nodup ∧
    (∀ v, v ∈ g.nodes ↔ g.is_node v = true) ∧
    (g.empty = true ↔ g.nodes = []) ∧
    g.nodes = g.nodes_ := by
  have heq : g.nodes = g.nodes_ := List.Sorted.insertionSort_eq hwf.1
  refine ⟨heq ▸ hwf.1, ?_, ?_, ?_, heq⟩
  · rw [heq]
    exact hwf.1.imp (fun h => ne_of_lt h)
  · intro v
    rw [heq]
    simp [graph.is_node]
  · rw [heq]
    simp [graph.empty]

/-- C22, at a concrete graph: nodes 1, 2, 3, 4 with the edge 1 -> 2 (10). -/
theorem nodes_spec_witness :
    (graph.mk [1, 2, 3, 4] [(1, [.weighted_edge 1 2 10])] : graph Nat Int).nodes.Pairwise (· < ·) ∧
    (graph.mk [1, 2, 3, 4] [(1, [.weighted_edge 1 2 10])] : graph Nat Int).nodes.Nodup ∧
    (∀ v, v ∈ (graph.mk [1, 2, 3, 4] [(1, [.weighted_edge 1 2 10])] : graph Nat Int).nodes ↔
      (graph.mk [1, 2, 3, 4] [(1, [.weighted_edge 1 2 10])] : graph Nat Int).is_node v = true) ∧
    ((graph.mk [1, 2, 3, 4] [(1, [.weighted_edge 1 2 10])] : graph Nat Int).empty = true ↔
      (graph.mk [1, 2, 3, 4] [(1, [.weighted_edge 1 2 10])] : graph Nat Int).nodes = []) ∧
    (graph.mk [1, 2, 3, 4] [(1, [.weighted_edge 1 2 10])] : graph Nat Int).nodes = [1, 2, 3, 4] :=
  nodes_spec (graph.mk [1, 2, 3, 4] [(1, [.weighted_edge 1 2 10])]) ⟨by decide, by decide⟩

/-- C23. In a graph whose node set is in key order, `insert_node (v)` returns true
exactly when `v` is not a node. On true the node set is that of `g` plus `v` and the
adjacency list, hence the edges, are untouched; on false the graph is unchanged. A value
that is not a node is inserted with true and inserting it again at once returns false. -/
theorem insert_node_spec (g : graph N E) (v : N) (hwf : g.WF) :
    ((g.insert_node v).1 = true ↔ v ∉ g.nodes_) ∧
    ((g.insert_node v).1 = true →
      (∀ x, x ∈ (g.insert_node v).2.nodes_ ↔ x = v ∨ x ∈ g.nodes_) ∧
      (g.insert_node v).2.adjacency_list_ = g.adjacency_list_ ∧
      (g.insert_node v).2.edge_list = g.edge_list) ∧
    ((g.insert_node v).1 = false → (g.insert_node v).2 = g) ∧
    (g.insert_node v).2.WF ∧
    (v ∉ g.nodes_ →
      (g.insert_node v).1 = true ∧ ((g.insert_node v).2.insert_node v).1 = false) := by
  have h1 : (g.insert_node v).1 = true ↔ v ∉ g.nodes_ := by
    simp [graph.insert_node, graph.is_node]
  refine ⟨h1, ?_, ?_, ?_, ?_⟩
  · intro _
    exact ⟨fun x => mem_set_insert v x g.nodes_, rfl, rfl⟩
  · intro hf
    have hv : v ∈ g.nodes_ := by
      by_contra hv
      rw [h1.2 hv] at hf
      exact absurd hf (by simp)
    simp only [graph.insert_node, set_insert_of_mem v g.nodes_ hwf.1 hv]
  · exact ⟨set_insert_sorted v g.nodes_ hwf.1, hwf.2⟩
  · intro hv
    refine ⟨h1.2 hv, ?_⟩
    simp [graph.insert_node, graph.is_node, mem_set_insert]

/-- C23, at a concrete graph: nodes 1, 3 with the edge 1 -> 3 (5), into which 2 is
inserted. -/
theorem insert_node_spec_witness :
    (((graph.mk [1, 3] [(1, [.weighted_edge 1 3 5])] : graph Nat Int).insert_node 2).1 = true ↔
      2 ∉ [1, 3]) ∧
    (((graph.mk [1, 3] [(1, [.weighted_edge 1 3 5])] : graph Nat Int).insert_node 2).1 = true →
      (∀ x, x ∈ ((graph.mk [1, 3] [(1, [.weighted_edge 1 3 5])] : graph Nat Int).insert_node
        2).2.nodes_ ↔ x = 2 ∨ x ∈ [1, 3]) ∧
      ((graph.mk [1, 3] [(1, [.weighted_edge 1 3 5])] : graph Nat Int).insert_node
        2).2.adjacency_list_ = [(1, [.weighted_edge 1 3 5])] ∧
      ((graph.mk [1, 3] [(1, [.weighted_edge 1 3 5])] : graph Nat Int).insert_node 2).2.edge_list
        = (graph.mk [1, 3] [(1, [.weighted_edge 1 3 5])] : graph Nat Int).edge_list) ∧
    (((graph.mk [1, 3] [(1, [.weighted_edge 1 3 5])] : graph Nat Int).insert_node 2).1 = false →
      ((graph.mk [1, 3] [(1, [.weighted_edge 1 3 5])] : graph Nat Int).insert_node 2).2
        = graph.mk [1, 3] [(1, [.weighted_edge 1 3 5])]) ∧
    ((graph.mk [1, 3] [(1, [.weighted_edge 1 3 5])] : graph Nat Int).insert_node 2).2.WF ∧
    (2 ∉ [1, 3] →
      ((graph.mk [1, 3] [(1, [.weighted_edge 1 3 5])] : graph Nat Int).insert_node 2).1 = true ∧
      (((graph.mk [1, 3] [(1, [.weighted_edge 1 3 5])] : graph Nat Int).insert_node
        2).2.insert_node 2).1 = false) :=
  insert_node_spec (graph.mk [1, 3] [(1, [.weighted_edge 1 3 5])]) 2 ⟨by decide, by decide⟩

/-- The loop of the two list constructors, started on any graph: the adjacency list is
untouched, the node set stays in key order and gains exactly the values of the list. -/
theorem insert_nodes_fold (l : List N) (g0 : graph N E) :
    (l.foldl (fun g v => (g.insert_node v).2) g0).adjacency_list_ = g0.adjacency_list_ ∧
    (g0.nodes_.Pairwise (· < ·) →
      (l.foldl (fun g v => (g.insert_node v).2) g0).nodes_.Pairwise (· < ·)) ∧
    (∀ v, v ∈ (l.foldl (fun g v => (g.insert_node v).2) g0).nodes_ ↔ v ∈ l ∨ v ∈ g0.nodes_) := by
  induction l generalizing g0 with
  | nil => simp
  | cons a l ih =>
    obtain ⟨h1, h2, h3⟩ := ih (g0.insert_node a).2
    simp only [List.foldl_cons]
    refine ⟨h1, fun h => h2 (set_insert_sorted a g0.nodes_ h), ?_⟩
    intro v
    rw [h3 v]
    simp only [graph.insert_node, mem_set_insert, List.mem_cons]
    tauto

/-- C27. The graph constructed from a list of values, with repeats and in any order, has
exactly the values of the list as nodes, no bucket and no edge, and `nodes ()` returns
these values in strictly ascending order; the default-constructed graph and the graph of
the empty list are empty. -/
theorem of_list_spec (l : List N) :
    (∀ v, (graph.of_list l : graph N E).is_node v = true ↔ v ∈ l) ∧
    (graph.of_list l : graph N E).adjacency_list_ = [] ∧
    (graph.of_list l : graph N E).edge_list = [] ∧
    (graph.of_list l : graph N E).nodes.Pairwise (· < ·) ∧
    (∀ v, v ∈ (graph.of_list l : graph N E).nodes ↔ v ∈ l) ∧
    (graph.of_list l : graph N E).WF ∧
    (graph.default : graph N E).empty = true ∧
    (graph.of_list [] : graph N E).empty = true ∧
    (graph.of_list [] : graph N E) = graph.default := by
  obtain ⟨h1, h2, h3⟩ := insert_nodes_fold l (graph.default : graph N E)
  have hsorted : (graph.of_list l : graph N E).nodes_.Pairwise (· < ·) :=
    h2 (by simp [graph.default])
  have hadj : (graph.of_list l : graph N E).adjacency_list_ = [] := h1
  have hmem : ∀ v, v ∈ (graph.of_list l : graph N E).nodes_ ↔ v ∈ l := by
    intro v
    have := h3 v
    simpa [graph.default] using this
  have hwf : (graph.of_list l : graph N E).WF := ⟨hsorted, by rw [hadj]; simp⟩
  have hnodes : (graph.of_list l : graph N E).nodes = (graph.of_list l : graph N E).nodes_ :=
    List.Sorted.insertionSort_eq hsorted
  refine ⟨?_, hadj, ?_, hnodes ▸ hsorted, ?_, hwf, rfl, rfl, rfl⟩
  · intro v
    simp [graph.is_node, hmem v]
  · simp [graph.edge_list, hadj, adj_view]
  · intro v
    rw [hnodes]
    exact hmem v

end node_set_theorems

/-! ## Edge values -/

section edge_theorems
variable [LinearOrder N] [LinearOrder E]

/-- C25. Two edges compare equal with `operator==` exactly when they have the same
weightedness, the same source, the same destination and the same optional weight. A
weighted edge is never equal to an unweighted one with the same endpoints, and two edges
that differ only in the destination or only in the weight are unequal. -/
theorem edge_operator_eq_spec (e1 e2 : edge N E) :
    (e1.operator_eq e2 = true ↔
      (e1.is_weighted = e2.is_weighted ∧ e1.get_nodes.1 = e2.get_nodes.1 ∧
        e1.get_nodes.2 = e2.get_nodes.2 ∧ e1.get_weight = e2.get_weight)) ∧
    (e1.operator_eq e2 = true ↔ e1 = e2) ∧
    (∀ (s d : N) (w : E),
      (edge.weighted_edge s d w).operator_eq (edge.unweighted_edge s d) = false ∧
      (edge.unweighted_edge s d : edge N E).operator_eq (edge.weighted_edge s d w) = false) ∧
    (∀ (s d d' : N) (w : E), d ≠ d' →
      (edge.weighted_edge s d w).operator_eq (edge.weighted_edge s d' w) = false ∧
      (edge.unweighted_edge s d : edge N E).operator_eq (edge.unweighted_edge s d') = false) ∧
    (∀ (s d : N) (w w' : E), w ≠ w' →
      (edge.weighted_edge s d w).operator_eq (edge.weighted_edge s d w') = false) := by
  refine ⟨?_, ?_, ?_, ?_, ?_⟩
  · cases e1 <;> cases e2 <;>
      simp [edge.operator_eq, edge.is_weighted, edge.get_nodes, edge.get_weight, and_assoc]
  · cases e1 <;> cases e2 <;>
      simp [edge.operator_eq, edge.is_weighted, edge.get_nodes, edge.get_weight, and_assoc]
  · intro s d w
    simp [edge.operator_eq, edge.is_weighted]
  · intro s d d' w h
    simp [edge.operator_eq, edge.is_weighted, edge.get_nodes, edge.get_weight, h]
  · intro s d w w' h
    simp [edge.operator_eq, edge.is_weighted, edge.get_nodes, edge.get_weight, h]

end edge_theorems

/-- C26. A weighted edge constructed from `(src, dst, w)` prints as the source, the
arrow, the destination and the ending `| W |` with the weight, is weighted, has the
weight `w` and the nodes `(src, dst)`; an unweighted edge constructed from `(src, dst)`
prints with the ending `| U`, is not weighted, has no weight and the nodes `(src, dst)`.
With decimal streaming the edges of the tests print as the tests expect. -/
theorem edge_accessors_spec (showN : N → String) (showE : E → String) (src dst : N) (w : E) :
    (edge.weighted_edge src dst w).print_edge showN showE
      = String.join [showN src, " -> ", showN dst, " | W | ", showE w] ∧
    (edge.weighted_edge src dst w).is_weighted = true ∧
    (edge.weighted_edge src dst w).get_weight = some w ∧
    (edge.weighted_edge src dst w).get_nodes = (src, dst) ∧
    (edge.unweighted_edge src dst : edge N E).print_edge showN showE
      = String.join [showN src, " -> ", showN dst, " | U"] ∧
    (edge.unweighted_edge src dst : edge N E).is_weighted = false ∧
    (edge.unweighted_edge src dst : edge N E).get_weight = none ∧
    (edge.unweighted_edge src dst : edge N E).get_nodes = (src, dst) ∧
    (edge.weighted_edge 1 2 10 : edge Int Int).print_edge (fun n => toString n)
      (fun x => toString x) = "1 -> 2 | W | 10" ∧
    (edge.unweighted_edge 1 2 : edge Int Int).print_edge (fun n => toString n)
      (fun x => toString x) = "1 -> 2 | U" := by
  refine ⟨?_, rfl, rfl, rfl, ?_, rfl, rfl, rfl, by decide, by decide⟩
  · simp [edge.print_edge, String.join, String.append_assoc]
  · simp [edge.print_edge, String.join, String.append_assoc]

/-! ## Reflexivity of equality -/

/-- C21. `g == g` is false after `merge_replace_node` with `old = new`. From nodes 1, 2 and
`insert_edge (1, 2)`, the call `merge_replace_node (1, 1)` passes the guard, erases 1 from
the node set and reassigns every bucket to itself: the graph keeps the bucket of 1 while
1 is no longer a node, and `operator==` returns false at `!other.is_node (src)`. -/
theorem operator_eq_not_reflexive (p : Nat) (al : Nat → Nat → Nat) :
    ((graph.of_list [1, 2] : graph Nat Int).insert_edge p 1 2 none).2.merge_replace_node al 1 1
      = (.ok (), graph.mk [2] [(1, [.unweighted_edge 1 2])]) ∧
    (((graph.of_list [1, 2] : graph Nat Int).insert_edge p 1 2 none).2.merge_replace_node
      al 1 1).2.operator_eq
      (((graph.of_list [1, 2] : graph Nat Int).insert_edge p 1 2 none).2.merge_replace_node
        al 1 1).2 = .ok false := by
  have h : ((graph.of_list [1, 2] : graph Nat Int).insert_edge p 1 2 none).2.merge_replace_node
      al 1 1 = (.ok (), graph.mk [2] [(1, [.unweighted_edge 1 2])]) := by
    cases p <;> rfl
  rw [h]
  exact ⟨rfl, rfl⟩

/-! ## Stepping back and termination of `begin` and `end` -/

theorem skip_empty_offset (i : Nat) (l : List (N × List (edge N E))) :
    skip_empty i l = i + skip_empty 0 l := by
  induction l generalizing i with
  | nil => simp [skip_empty]
  | cons kb r ih =>
    obtain ⟨k, b⟩ := kb
    simp only [skip_empty]
    split_ifs
    · rw [ih (i + 1), ih (0 + 1)]; omega
    · rfl

theorem skip_empty_le (l : List (N × List (edge N E))) : skip_empty 0 l ≤ l.length := by
  induction l with
  | nil => simp [skip_empty]
  | cons kb r ih =>
    obtain ⟨k, b⟩ := kb
    simp only [skip_empty]
    split_ifs
    · rw [skip_empty_offset]; simp only [List.length_cons]; omega
    · exact Nat.zero_le _

/-- Every entry before the one `begin` and `end` stop at has an empty bucket. -/
theorem empty_before_skip_empty (l : List (N × List (edge N E))) (j : Nat)
    (hj : j < skip_empty 0 l) : (map_index_at j l).isEmpty = true := by
  induction l generalizing j with
  | nil => simp [skip_empty] at hj
  | cons kb r ih =>
    obtain ⟨k, b⟩ := kb
    simp only [skip_empty] at hj
    split_ifs at hj with hb
    · rw [skip_empty_offset] at hj
      cases j with
      | zero => simpa [map_index_at] using hb
      | succ j =>
        have := ih j (by omega)
        simpa [map_index_at] using this
    · exact absurd hj (Nat.not_lt_zero _)

/-- Walking back over empty buckets only, the loop arrives at the first entry. -/
theorem walk_back_of_empty (stays : Bool) (g : graph N E) (n : Nat)
    (h : ∀ j < n, (map_index_at j g.adjacency_list_).isEmpty = true) :
    walk_back stays g n = walk_back stays g 0 := by
  induction n with
  | zero => rfl
  | succ n ih =>
    simp only [walk_back, h n (Nat.lt_succ_self n), if_true]
    exact ih (fun j hj => h j (Nat.lt_succ_of_lt hj))

/-- Stepping back from the cursor `end ()` gives no cursor or the cursor at the last
edge object of the first entry of the map. -/
theorem decrement_end_first_entry (stays : Bool) (g : graph N E) (fuel : Nat) :
    (g.end_ fuel).bind (iterator.decrement stays g) = none ∨
    (g.end_ fuel).bind (iterator.decrement stays g) =
      some ⟨0, g.adjacency_list_.length,
        (0, (map_index_at 0 g.adjacency_list_).length - 1)⟩ := by
  by_cases h : skip_empty 0 g.adjacency_list_ = g.adjacency_list_.length
  · left; rw [end_without_edges g h fuel]; rfl
  · cases fuel with
    | zero => left; rfl
    | succ n =>
      have hlt : skip_empty 0 g.adjacency_list_ < g.adjacency_list_.length :=
        lt_of_le_of_ne (skip_empty_le _) h
      have hw := walk_back_of_empty stays g (skip_empty 0 g.adjacency_list_)
        (fun j hj => empty_before_skip_empty g.adjacency_list_ j hj)
      have hend : g.end_ (n + 1) = some ⟨skip_empty 0 g.adjacency_list_,
          g.adjacency_list_.length, (skip_empty 0 g.adjacency_list_, 0)⟩ := by
        simp only [graph.end_, h, if_false, construct_of_ne _ _ _ h]
      rw [hend]
      simp only [Option.some_bind, iterator.decrement, ge_iff_le, not_le.2 hlt, if_false,
        if_true, ne_eq, h, not_false_eq_true, hw]
      by_cases hs : (stays && !(map_index_at 0 g.adjacency_list_).isEmpty) = true
      · right
        have hpos : (map_index_at 0 g.adjacency_list_).length ≠ 0 := by
          intro h0
          have : map_index_at 0 g.adjacency_list_ = [] := List.length_eq_zero.1 h0
          simp [this] at hs
        simp only [walk_back, hs, if_true, hpos, if_false]
      · left
        simp only [walk_back, hs]
        rfl

/-- C24. The cursor `end ()` sits at the first edge of the first bucket that holds an
edge, and `operator--` on it never leaves the first entry of the map: on every graph
`--end ()` gives no cursor or the cursor at the last edge object of the first entry. With
nodes 1, 2 and the edges 1 -> 2 (10), 2 -> 1 (20) the last edge of the traversal order is
2 -> 1 (20), but `--end ()` dereferences to 1 -> 2 (10) when the library comes back to the
first entry, and gives no cursor otherwise. On the graph of the decrement tests (nodes
1, 2, 3 with 1 -> 2 (10), 1 -> 3 (20), one bucket, the second pointer behind the first)
the library comes back to the only entry and `--end ()` dereferences to 1 -> 3 (20), the
next decrement to 1 -> 2 (10), as the tests expect. -/
theorem decrement_of_end_stays_in_first_entry :
    (∀ (g : graph Nat Int) (stays : Bool) (fuel : Nat),
      (g.end_ fuel).bind (iterator.decrement stays g) = none ∨
      (g.end_ fuel).bind (iterator.decrement stays g) =
        some ⟨0, g.adjacency_list_.length,
          (0, (map_index_at 0 g.adjacency_list_).length - 1)⟩) ∧
    (∀ p q fuel : Nat,
      (decrement_two_buckets p q).edge_list = [(1, 2, some 10), (2, 1, some 20)] ∧
      (decrement_two_buckets p q).end_ (fuel + 1) = some ⟨0, 2, (0, 0)⟩ ∧
      iterator.decrement true (decrement_two_buckets p q) ⟨0, 2, (0, 0)⟩ = some ⟨0, 2, (0, 0)⟩ ∧
      iterator.deref (decrement_two_buckets p q) ⟨0, 2, (0, 0)⟩ = some (1, 2, some 10) ∧
      iterator.decrement false (decrement_two_buckets p q) ⟨0, 2, (0, 0)⟩ = none) ∧
    (∀ p q fuel : Nat,
      (decrement_one_bucket p q).end_ (fuel + 1) = some ⟨0, 1, (0, 0)⟩ ∧
      iterator.decrement true (decrement_one_bucket p q) ⟨0, 1, (0, 0)⟩ = some ⟨0, 1, (0, 1)⟩ ∧
      iterator.deref (decrement_one_bucket p q) ⟨0, 1, (0, 1)⟩ = some (1, 3, some 20) ∧
      iterator.decrement true (decrement_one_bucket p q) ⟨0, 1, (0, 1)⟩ = some ⟨0, 1, (0, 0)⟩ ∧
      iterator.deref (decrement_one_bucket p q) ⟨0, 1, (0, 0)⟩ = some (1, 2, some 10)) := by
  refine ⟨fun g stays fuel => decrement_end_first_entry stays g fuel, ?_, ?_⟩
  · intro p q fuel
    have h : decrement_two_buckets p q = graph.mk [1, 2]
        [(1, [.weighted_edge 1 2 10]), (2, [.weighted_edge 2 1 20])] := by
      cases p <;> cases q <;> rfl
    rw [h]
    exact ⟨rfl, rfl, rfl, rfl, rfl⟩
  · intro p q fuel
    have h : decrement_one_bucket p q = graph.mk [1, 2, 3]
        [(1, [.weighted_edge 1 2 10, .weighted_edge 1 3 20])] := by
      cases p <;> cases q <;> rfl
    rw [h]
    exact ⟨rfl, rfl, rfl, rfl, rfl⟩

/-- C28. On a graph without buckets, whatever its nodes, `end ()`, `begin ()` and `find`
do not return: `end ()` finds no bucket with an edge and calls itself on the same graph,
`begin ()` and `find` call `end ()`. No amount of fuel yields a cursor; this covers the
default-constructed graph and every graph built from a list of nodes. -/
theorem begin_end_never_return :
    (∀ (nodes : List Nat) (fuel : Nat),
      (graph.mk nodes [] : graph Nat Int).end_ fuel = none ∧
      (graph.mk nodes [] : graph Nat Int).begin_ fuel = none ∧
      ∀ (src dst : Nat) (w : Option Int),
        (graph.mk nodes [] : graph Nat Int).find fuel src dst w = none) ∧
    (∀ fuel : Nat, (graph.default : graph Nat Int).end_ fuel = none ∧
      (graph.default : graph Nat Int).begin_ fuel = none) ∧
    (∀ fuel : Nat, (graph.of_list [1, 2, 3] : graph Nat Int).end_ fuel = none ∧
      (graph.of_list [1, 2, 3] : graph Nat Int).begin_ fuel = none ∧
      (graph.of_list [1, 2, 3] : graph Nat Int).find fuel 1 2 (some 10) = none) := by
  have h : ∀ (nodes : List Nat) (fuel : Nat),
      (graph.mk nodes [] : graph Nat Int).end_ fuel = none :=
    fun nodes fuel => end_without_edges (graph.mk nodes []) rfl fuel
  have hb : ∀ (nodes : List Nat) (fuel : Nat),
      (graph.mk nodes [] : graph Nat Int).begin_ fuel = none := by
    intro nodes fuel
    simp only [graph.begin_, skip_empty, List.length_nil, if_true, h]
  have hf : ∀ (nodes : List Nat) (fuel : Nat) (src dst : Nat) (w : Option Int),
      (graph.mk nodes [] : graph Nat Int).find fuel src dst w = none := by
    intro nodes fuel src dst w
    simp only [graph.find, List.findIdx?_nil, h]
  exact ⟨fun nodes fuel => ⟨h nodes fuel, hb nodes fuel, hf nodes fuel⟩,
    fun fuel => ⟨h [] fuel, hb [] fuel⟩,
    fun fuel => ⟨h [1, 2, 3] fuel, hb [1, 2, 3] fuel, hf [1, 2, 3] fuel 1 2 (some 10)⟩⟩

/-! ## Stored edge objects -/

/-- C29. After `replace_node` a stored edge no longer reports the source it is stored
under. From nodes 1, 2 and `insert_edge (1, 2)`, `replace_node (1, 4)` leaves the old edge
object in the bucket of 4: `edges (4, 2)` returns an edge whose `get_nodes ()` is (1, 2),
with 1 not in the node set, and whose `print_edge` names 1 as the source, while the
rendering of the graph writes the line of the edge 4 -> 2. -/
theorem stored_edge_keeps_old_source (p : Nat) (al : Nat → Nat → Nat) :
    (((graph.of_list [1, 2] : graph Nat Int).insert_edge p 1 2 none).2.replace_node al 1 4)
      = (.ok true, graph.mk [2, 4] [(4, [.unweighted_edge 1 2])]) ∧
    (((graph.of_list [1, 2] : graph Nat Int).insert_edge p 1 2 none).2.replace_node
      al 1 4).2.edges 4 2 = .ok [.unweighted_edge 1 2] ∧
    (edge.unweighted_edge 1 2 : edge Nat Int).get_nodes = (1, 2) ∧
    (((graph.of_list [1, 2] : graph Nat Int).insert_edge p 1 2 none).2.replace_node
      al 1 4).2.is_node 1 = false ∧
    (edge.unweighted_edge 1 2 : edge Nat Int).print_edge (fun n => toString n)
      (fun w => toString w) = "1 -> 2 | U" ∧
    (((graph.of_list [1, 2] : graph Nat Int).insert_edge p 1 2 none).2.replace_node
      al 1 4).2.operator_shl (fun n => toString n) (fun w => toString w)
      = "2 (\n)\n4 (\n  4 -> 2 | U\n)\n" := by
  have h : (((graph.of_list [1, 2] : graph Nat Int).insert_edge p 1 2 none).2.replace_node al 1 4)
      = (.ok true, graph.mk [2, 4] [(4, [.unweighted_edge 1 2])]) := by
    cases p <;> rfl
  rw [h]
  exact ⟨rfl, rfl, rfl, rfl, by decide, by decide⟩

/-! ## Insert followed by erase -/

/-- C30. Insert followed by erase does not give back an equal graph when the graph holds
an empty bucket. From nodes 1, 2, 3, `insert_edge (1, 3)` and `erase_node (3)` reach the
graph with the nodes 1, 2 and an empty bucket for 1. It has no edge 1 -> 2;
`insert_edge (1, 2)` returns true and `erase_edge (1, 2)` returns true; the result has the
same nodes and the same (empty) list of edges, but `erase_edge` assigns only the buckets
that are not empty, so the bucket of 1 is gone and `g' == g` is false. -/
theorem insert_erase_not_equal (p q : Nat) (al al' : Nat → Nat → Nat) :
    (((graph.of_list [1, 2, 3] : graph Nat Int).insert_edge p 1 3 none).2.erase_node al 3).2
      = graph.mk [1, 2] [(1, [])] ∧
    ((graph.mk [1, 2] [(1, [])] : graph Nat Int).insert_edge q 1 2 none).1 = .ok true ∧
    (((graph.mk [1, 2] [(1, [])] : graph Nat Int).insert_edge q 1 2 none).2.erase_edge
      al' 1 2 none) = (.ok true, graph.mk [1, 2] []) ∧
    (graph.mk [1, 2] [] : graph Nat Int).edge_list
      = (graph.mk [1, 2] [(1, [])] : graph Nat Int).edge_list ∧
    (graph.mk [1, 2] [] : graph Nat Int).operator_eq (graph.mk [1, 2] [(1, [])]) = .ok false ∧
    (graph.mk [1, 2] [(1, [])] : graph Nat Int).operator_eq (graph.mk [1, 2] []) = .ok false := by
  refine ⟨?_, ?_, ?_, rfl, rfl, rfl⟩
  · cases p <;> rfl
  · cases q <;> rfl
  · cases q <;> rfl

/-! ## Rendering and construction history -/

section history_theorems
variable [LinearOrder N] [LinearOrder E]

theorem tuple_lt_asymm (x y : N × N × Option E) (h1 : tuple_lt x y) : ¬ tuple_lt y x := by
  rintro (h2 | ⟨e2, h2⟩)
  · rcases h1 with h1 | ⟨e1, _⟩
    · exact lt_asymm h1 h2
    · exact absurd (e1 ▸ h2) (lt_irrefl _)
  · rcases h1 with h1 | ⟨_, h1⟩
    · exact absurd (e2 ▸ h1) (lt_irrefl _)
    · exact out_lt_asymm _ _ h1 h2

/-- Two duplicate-free lists of tuples with the same elements are sorted by `operator<<`
into the same vector. -/
theorem sorted_vector_unique (l₁ l₂ : List (N × N × Option E)) (hd₁ : l₁.Nodup)
    (hd₂ : l₂.Nodup) (h : ∀ t, t ∈ l₁ ↔ t ∈ l₂) :
    l₁.insertionSort (fun a b => extractor_less a b = true) =
      l₂.insertionSort (fun a b => extractor_less a b = true) := by
  have hs : ∀ l : List (N × N × Option E), l.Nodup →
      (l.insertionSort (fun a b => extractor_less a b = true)).Pairwise tuple_lt :=
    fun l hl => insertionSort_pairwise _ tuple_lt l tuple_lt_trans
      (fun x _ y _ hxy => extractor_less_iff x y hxy)
      (fun x _ y _ hxy => tuple_lt_trichotomy x y hxy) hl
  have hperm : l₁.Perm l₂ := (List.perm_ext_iff_of_nodup hd₁ hd₂).2 h
  haveI : IsAntisymm (N × N × Option E) tuple_lt :=
    ⟨fun a b h1 h2 => absurd h2 (tuple_lt_asymm a b h1)⟩
  exact List.eq_of_perm_of_sorted
    (((List.perm_insertionSort _ l₁).trans hperm).trans (List.perm_insertionSort _ l₂).symm)
    (hs l₁ hd₁) (hs l₂ hd₂)

/-- Two node sets in key order with the same members are the same list. -/
theorem node_set_unique (l₁ l₂ : List N) (h₁ : l₁.Pairwise (· < ·)) (h₂ : l₂.Pairwise (· < ·))
    (h : ∀ v, v ∈ l₁ ↔ v ∈ l₂) : l₁ = l₂ := by
  have hperm : l₁.Perm l₂ :=
    (List.perm_ext_iff_of_nodup (h₁.imp (fun h => ne_of_lt h)) (h₂.imp (fun h => ne_of_lt h))).2 h
  haveI : IsAntisymm N (· < ·) := ⟨fun a b h1 h2 => absurd h2 (lt_asymm h1)⟩
  exact List.eq_of_perm_of_sorted hperm h₁ h₂

/-- C31. Two graphs in key order without duplicate edges that have the same nodes and
the same (source, destination, optional weight) edges are written by `operator<<` as the
same text, whatever buckets they hold and in whatever order the buckets store their
edge objects. -/
theorem rendering_independent_of_history (showN : N → String) (showE : E → String)
    (g₁ g₂ : graph N E) (hwf₁ : g₁.WF) (hwf₂ : g₂.WF)
    (hB₁ : g₁.edge_list.Nodup) (hB₂ : g₂.edge_list.Nodup)
    (hnodes : ∀ v, v ∈ g₁.nodes_ ↔ v ∈ g₂.nodes_)
    (hedges : ∀ t, t ∈ g₁.edge_list ↔ t ∈ g₂.edge_list) :
    g₁.operator_shl showN showE = g₂.operator_shl showN showE := by
  have hn : g₁.nodes_ = g₂.nodes_ := node_set_unique _ _ hwf₁.1 hwf₂.1 hnodes
  have he := sorted_vector_unique g₁.edge_list g₂.edge_list hB₁ hB₂ hedges
  simp only [graph.operator_shl, graph.empty, hn, he]

/-- C31, at the two constructions `history_left` and `history_right` of the graph of the
specification's example, which differ in the order of the nodes given and of the edges
inserted. The buckets of 1 store their edges in opposite orders and the two texts are the
same, the one the test expects. -/
theorem rendering_independent_of_history_witness :
    history_left.adjacency_list_ ≠ history_right.adjacency_list_ ∧
    history_left.operator_shl (fun n => toString n) (fun w => toString w)
      = history_right.operator_shl (fun n => toString n) (fun w => toString w) ∧
    history_right.operator_shl (fun n => toString n) (fun w => toString w)
      = "1 (\n  1 -> 2 | W | 10\n  1 -> 3 | W | 20\n)\n2 (\n)\n3 (\n)\n4 (\n  4 -> 3 | U\n)\n" :=
  ⟨by decide,
    rendering_independent_of_history (fun n => toString n) (fun w => toString w)
      history_left
      history_right
      ⟨by decide, by decide⟩ ⟨by decide, by decide⟩ (by decide) (by decide)
      (by
        intro v
        have n₁ : history_left.nodes_ = [1, 2, 3, 4] := by decide
        have n₂ : history_right.nodes_ = [1, 2, 3, 4] := by decide
        rw [n₁, n₂])
      (by
        intro t
        have e₁ : history_left.edge_list =
            [(1, 3, some 20), (1, 2, some 10), (4, 3, none)] := by decide
        have e₂ : history_right.edge_list =
            [(1, 2, some 10), (1, 3, some 20), (4, 3, none)] := by decide
        rw [e₁, e₂]
        simp only [List.mem_cons, List.mem_singleton]
        tauto),
    by decide⟩

end history_theorems

end gdwg
